import Mathlib

/-! Verification of the in-memory task store (package `task`) and its HTTP handlers

The Go sources embedded here are `src/task/task.go` and `src/server/server.go`.

Modelling conventions.

* `int64` values are integers; the only arithmetic on them in the sources is
  `m.lastID++`, embedded as `wrap64 (m.lastID + 1)` (two's complement wrap).
* The slice `[]*Task` is a `List Task` of record values: `Save` stores a
  `cloneTask` copy, so the record it stores is not the caller's. The results on
  `TaskManager` are about callers that act on the store through `Save`, `Find`
  and `All` and do not write through a pointer obtained from `Find` or `All`.
  The value view is exact whenever the argument of `Save` is not a pointer the
  store holds, or has a nonzero ID (`ptr_Save_view`, `ptr_findLoop_view`); for
  an argument the store holds with ID 0, the assignment `task.ID = m.lastID`
  also rewrites the stored record, which only `PtrState` shows.
* The questions of sharing (which Task object a pointer held by a caller or by
  the store points to) are settled on `PtrState`, where the records are held
  by reference as in the source: a `*Task` is an index into the list of the
  Task objects allocated so far.
* A Go method that mutates its receiver and its pointer argument returns the
  new receiver and the new argument next to its `error` result.
* `error` is `Option String` (`none` is `nil`), the message being `Error()`.
-/

namespace task

/-- Smallest value of the Go type int64. -/
def minInt64 : Int := -9223372036854775808

/-- Largest value of the Go type int64. -/
def maxInt64 : Int := 9223372036854775807

/-- Reduction of an integer into the int64 range, as Go arithmetic does on overflow. -/
def wrap64 (x : Int) : Int := (x + 9223372036854775808) % 18446744073709551616 - 9223372036854775808

/-- The integer is a value of the Go type int64. -/
def isInt64 (x : Int) : Prop := minInt64 ≤ x ∧ x ≤ maxInt64

instance (x : Int) : Decidable (isInt64 x) := by unfold isInt64; infer_instance

/-- A Task represents a task to be accomplished (task.go, lines 9-13). -/
structure Task where
  ID : Int
  Title : String
  Done : Bool
  deriving DecidableEq, Repr

/-- NewTask creates a new task given a title, that can not be empty (task.go, lines 16-21). -/
def NewTask (title : String) : Except String Task :=
  if title = "" then
    Except.error "empty title"
  else
    Except.ok ⟨0, title, false⟩

/-- TaskManager manages a list of tasks in memory (task.go, lines 24-27). -/
structure TaskManager where
  tasks : List Task
  lastID : Int
  deriving DecidableEq, Repr

/-- NewTaskManager returns an empty TaskManager: the zero value of the struct
(task.go, lines 30-32). -/
def NewTaskManager : TaskManager := ⟨[], 0⟩

/-- Create and return a deep copy of the given Task (task.go, lines 55-58). -/
def cloneTask (t : Task) : Task := ⟨t.ID, t.Title, t.Done⟩

/-- The replacement loop of Save (task.go, lines 43-48): the first stored record
whose ID equals the ID of the argument is overwritten by a copy of the argument;
the result is none when the loop ends without a match. -/
def replaceLoop : List Task → Task → Option (List Task)
  | [], _ => none
  | t :: ts, task =>
    if t.ID = task.ID then
      some (cloneTask task :: ts)
    else
      (replaceLoop ts task).map (fun ts1 => t :: ts1)

/-- Outcome of a call of Save: the manager and the argument after the call, and the
returned error. -/
structure SaveResult where
  m : TaskManager
  task : Task
  err : Option String
  deriving DecidableEq, Repr

/-- Saves the given Task in the TaskManager (task.go, lines 35-52). -/
def TaskManager.Save (m : TaskManager) (task : Task) : SaveResult :=
  if task.ID = 0 then
    let lastID := wrap64 (m.lastID + 1)
    let task1 : Task := ⟨lastID, task.Title, task.Done⟩
    ⟨⟨m.tasks ++ [cloneTask task1], lastID⟩, task1, none⟩
  else
    match replaceLoop m.tasks task with
    | some ts => ⟨⟨ts, m.lastID⟩, task, none⟩
    | none => ⟨m, task, some "uknown error"⟩

/-- Returns the list of all the Tasks in the TaskManager (task.go, lines 61-63). -/
def TaskManager.All (m : TaskManager) : List Task := m.tasks

/-- The scan of Find (task.go, lines 68-73) over the stored records. -/
def findLoop : List Task → Int → Option Task × Bool
  | [], _ => (none, false)
  | t :: ts, ID => if t.ID = ID then (some t, true) else findLoop ts ID

/-- Finds the Task with the given id in the TaskManager and a boolean indicating if
the id was found (task.go, lines 67-74). -/
def TaskManager.Find (m : TaskManager) (ID : Int) : Option Task × Bool :=
  findLoop m.tasks ID

/-- The manager after a sequence of Save calls, made in order with the given arguments. -/
def runSaves : TaskManager → List Task → TaskManager
  | m, [] => m
  | m, t :: ts => runSaves (m.Save t).m ts

/-- The IDs handed out by a sequence of Save calls: for each call whose argument has
ID 0, the ID the argument carries after the call, in call order. -/
def assignedIDs : TaskManager → List Task → List Int
  | _, [] => []
  | m, t :: ts =>
    if t.ID = 0 then
      (m.Save t).task.ID :: assignedIDs (m.Save t).m ts
    else
      assignedIDs (m.Save t).m ts

/-- Number of new-record calls (argument with ID 0) in a sequence of Save calls. -/
def countNew : List Task → Nat
  | [] => 0
  | t :: ts => if t.ID = 0 then countNew ts + 1 else countNew ts

/-- The IDs 1, 2, ..., n in increasing order. -/
def idsUpTo (n : Nat) : List Int := (List.range n).map (fun (i : Nat) => (i : Int) + 1)

/-- A sample sequence of Save arguments: two new records, a save with an unknown ID
between them and a replacement of the first record at the end. -/
def sampleCalls : List Task :=
  [⟨0, "write", false⟩, ⟨7, "stray", true⟩, ⟨0, "read", false⟩, ⟨1, "rewrite", true⟩]

/-- Representation invariant of the store: the stored IDs, in sequence order, are
1, 2, ..., lastID. -/
def Inv (m : TaskManager) : Prop :=
  m.tasks.map (fun s => s.ID) = idsUpTo m.tasks.length ∧ m.lastID = (m.tasks.length : Int)

/-- The store with its records held by reference, as in the source. A *Task is the
index of its object among the Task objects allocated so far (cells); tasks is the
slice m.tasks, a list of such pointers; lastID is m.lastID. -/
structure PtrState where
  cells : List Task
  tasks : List Nat
  lastID : Int
  deriving DecidableEq, Repr

/-- The Task a pointer points to. -/
def PtrState.read (μ : PtrState) (p : Nat) : Task := μ.cells.getD p ⟨0, "", false⟩

/-- Assignment of the fields of the Task a pointer points to, by whoever holds the
pointer. -/
def PtrState.write (μ : PtrState) (p : Nat) (t : Task) : PtrState :=
  ⟨μ.cells.set p t, μ.tasks, μ.lastID⟩

/-- Allocation of a Task object by a caller, as &Task{...} in NewTask (task.go, line
20) or var t task.Task in the update handler: the new object gets the next index. -/
def PtrState.alloc (μ : PtrState) (t : Task) : PtrState :=
  ⟨μ.cells ++ [t], μ.tasks, μ.lastID⟩

/-- The function cloneTask on pointers (task.go, lines 55-58): c := *t allocates a new
Task object holding a copy, and the pointer to it is returned. -/
def PtrState.cloneTask (μ : PtrState) (t : Nat) : PtrState × Nat :=
  (⟨μ.cells ++ [μ.read t], μ.tasks, μ.lastID⟩, μ.cells.length)

/-- The scan of the replacement loop of Save (task.go, lines 43-44) on pointers: the
first position of the slice whose record has the given ID. -/
def PtrState.matchIndex (μ : PtrState) : List Nat → Int → Option Nat
  | [], _ => none
  | q :: qs, id =>
    if (μ.read q).ID = id then some 0 else (μ.matchIndex qs id).map (fun i => i + 1)

/-- The method Save on pointers (task.go, lines 35-52): the argument is the pointer
the caller passes; the new state and the returned error are the result. -/
def PtrState.Save (μ : PtrState) (task : Nat) : PtrState × Option String :=
  if (μ.read task).ID = 0 then
    let μ1 : PtrState := ⟨μ.cells, μ.tasks, wrap64 (μ.lastID + 1)⟩
    let μ2 := μ1.write task ⟨μ1.lastID, (μ1.read task).Title, (μ1.read task).Done⟩
    let c := μ2.cloneTask task
    (⟨c.1.cells, c.1.tasks ++ [c.2], c.1.lastID⟩, none)
  else
    match μ.matchIndex μ.tasks (μ.read task).ID with
    | some i =>
      let c := μ.cloneTask task
      (⟨c.1.cells, c.1.tasks.set i c.2, c.1.lastID⟩, none)
    | none => (μ, some "uknown error")

/-- The method All on pointers (task.go, lines 61-63): the slice of stored pointers. -/
def PtrState.All (μ : PtrState) : List Nat := μ.tasks

/-- The scan of Find on pointers (task.go, lines 68-73). -/
def PtrState.findLoop (μ : PtrState) : List Nat → Int → Option Nat × Bool
  | [], _ => (none, false)
  | q :: qs, ID => if (μ.read q).ID = ID then (some q, true) else μ.findLoop qs ID

/-- The method Find on pointers (task.go, lines 67-74): the stored pointer itself is
returned. -/
def PtrState.Find (μ : PtrState) (ID : Int) : Option Nat × Bool :=
  μ.findLoop μ.tasks ID

/-- The store by value: the records the stored pointers point to, in sequence order. -/
def PtrState.view (μ : PtrState) : TaskManager := ⟨μ.tasks.map μ.read, μ.lastID⟩

/-- Every stored pointer points to an allocated Task object. -/
def PtrState.Valid (μ : PtrState) : Prop := ∀ q ∈ μ.tasks, q < μ.cells.length

instance (μ : PtrState) : Decidable μ.Valid := by unfold PtrState.Valid; infer_instance

/-- The stored IDs are nonzero and pairwise different (as in every state reached by
Save calls, see C2). -/
def PtrState.DistinctIDs (μ : PtrState) : Prop :=
  (μ.view.tasks.map (fun s => s.ID)).Nodup ∧ ∀ s ∈ μ.view.tasks, s.ID ≠ 0

instance (μ : PtrState) : Decidable μ.DistinctIDs := by
  unfold PtrState.DistinctIDs; infer_instance

/-- A pointer-level state after two saves: the objects 0 and 2 belong to the caller
(the arguments of the saves), the objects 1 and 3 are the copies the store holds. -/
def samplePtrState : PtrState :=
  ⟨[⟨1, "write", false⟩, ⟨1, "write", false⟩, ⟨2, "read", false⟩, ⟨2, "read", false⟩],
    [1, 3], 2⟩

/-- The pointer-level state a caller reaches through the exported functions alone:
it allocates the task (0, "draft", false), saves it into the empty store, obtains
the stored pointer 1 from Find 1 and sets the ID of the Task it points to back to 0. -/
def aliasedPtrState : PtrState :=
  ((((⟨[], [], 0⟩ : PtrState).alloc ⟨0, "draft", false⟩).Save 0).1).write 1
    ⟨0, "draft", false⟩

end task

namespace server

/-- The error values a handler returns, by the cases errorHandler distinguishes
(server.go, lines 36-39 and 51-59): a badRequest wrapping an error with the given
message, a notFound, or any other error. -/
inductive HandlerError where
  | badRequest (msg : String)
  | notFound
  | other (msg : String)
  deriving DecidableEq, Repr

/-- The creation handler (server.go, lines 75-85). The JSON decoding of the request
body is outside the repository: its outcome (an error message, or the decoded Title
field) is the second argument. The handler acts on the package-level store, passed
and returned here. -/
def NewTask (tasks : task.TaskManager) (decoded : Except String String) :
    task.TaskManager × Option HandlerError :=
  match decoded with
  | Except.error e => (tasks, some (HandlerError.badRequest e))
  | Except.ok title =>
    match task.NewTask title with
    | Except.error e => (tasks, some (HandlerError.badRequest e))
    | Except.ok t =>
      let r := tasks.Save t
      (r.m, r.err.map HandlerError.other)

/-- Outcome of the lookup handler: the store after the call, the task handed to the
JSON encoder (none when the handler returns before encoding) and the returned error. -/
structure GetResult where
  tasks : task.TaskManager
  body : Option task.Task
  err : Option HandlerError
  deriving DecidableEq, Repr

/-- The lookup handler (server.go, lines 97-110). parseID and the JSON encoder are
outside the repository: the outcome of parseID (an error message, or the parsed id)
is the second argument, the error returned by the encoder (none for nil) the third. -/
def GetTask (tasks : task.TaskManager) (parsed : Except String Int)
    (encodeErr : Option String) : GetResult :=
  match parsed with
  | Except.error e => ⟨tasks, none, some (HandlerError.badRequest e)⟩
  | Except.ok id =>
    if (tasks.Find id).2 = false then
      ⟨tasks, none, some HandlerError.notFound⟩
    else
      ⟨tasks, (tasks.Find id).1, encodeErr.map HandlerError.other⟩

/-- The update handler (server.go, lines 112-128). The outcome of parseID and of the
JSON decoding of the body into a Task (an error message, or the value) are the second
and third arguments. -/
def UpdateTask (tasks : task.TaskManager) (parsed : Except String Int)
    (decoded : Except String task.Task) : task.TaskManager × Option HandlerError :=
  match parsed with
  | Except.error e => (tasks, some (HandlerError.badRequest e))
  | Except.ok id =>
    match decoded with
    | Except.error e => (tasks, some (HandlerError.badRequest e))
    | Except.ok t =>
      if t.ID ≠ id then
        (tasks, some (HandlerError.badRequest "inconsistent task IDs"))
      else if (tasks.Find id).2 = false then
        (tasks, some HandlerError.notFound)
      else
        let r := tasks.Save t
        (r.m, r.err.map HandlerError.other)

/-- What errorHandler does with the error of a handler: the call of http.Error it
makes (status code and message; none when it makes none) and the line it logs. -/
structure ErrorReply where
  status : Option Nat
  message : Option String
  logged : Option String
  deriving DecidableEq, Repr

/-- The body of the closure errorHandler returns (server.go, lines 45-61), after
err := f(w, r): the type switch on the error of the wrapped handler. The status
codes are the values of http.StatusBadRequest, http.StatusNotFound and
http.StatusInternalServerError. -/
def errorHandler (err : Option HandlerError) : ErrorReply :=
  match err with
  | none => ⟨none, none, none⟩
  | some (HandlerError.badRequest msg) => ⟨some 400, some msg, none⟩
  | some HandlerError.notFound => ⟨some 404, some "task not found", none⟩
  | some (HandlerError.other msg) => ⟨some 500, some "oops", some msg⟩

/-- The store after a sequence of requests to the creation handler, given by the
outcomes of decoding their bodies. -/
def runNewTask : task.TaskManager → List (Except String String) → task.TaskManager
  | m, [] => m
  | m, d :: ds => runNewTask (NewTask m d).1 ds

end server

/-! ## Auxiliary lemmas on the store -/

namespace task

theorem wrap64_of_range (x : Int) (h1 : minInt64 ≤ x) (h2 : x ≤ maxInt64) : wrap64 x = x := by
  unfold wrap64
  unfold minInt64 at h1
  unfold maxInt64 at h2
  omega

theorem cloneTask_eq (t : Task) : cloneTask t = t := by
  cases t
  rfl

theorem Save_zero (m : TaskManager) (t : Task) (h : t.ID = 0) :
    m.Save t =
      ⟨⟨m.tasks ++ [⟨wrap64 (m.lastID + 1), t.Title, t.Done⟩], wrap64 (m.lastID + 1)⟩,
        ⟨wrap64 (m.lastID + 1), t.Title, t.Done⟩, none⟩ := by
  simp [TaskManager.Save, h, cloneTask]

theorem Save_nonzero (m : TaskManager) (t : Task) (h : t.ID ≠ 0) :
    m.Save t =
      match replaceLoop m.tasks t with
      | some ts => ⟨⟨ts, m.lastID⟩, t, none⟩
      | none => ⟨m, t, some "uknown error"⟩ := by
  simp [TaskManager.Save, h]

theorem replaceLoop_none_iff (ts : List Task) (t : Task) :
    replaceLoop ts t = none ↔ ∀ s ∈ ts, s.ID ≠ t.ID := by
  induction ts with
  | nil => simp [replaceLoop]
  | cons a as ih =>
    by_cases h : a.ID = t.ID
    · simp [replaceLoop, h]
    · simp [replaceLoop, h, ih]

theorem replaceLoop_some_set (ts : List Task) (t : Task) (ts1 : List Task)
    (h : replaceLoop ts t = some ts1) :
    ts1 = ts.set (ts.findIdx (fun s => decide (s.ID = t.ID))) t := by
  induction ts generalizing ts1 with
  | nil => simp [replaceLoop] at h
  | cons a as ih =>
    by_cases ha : a.ID = t.ID
    · simp [replaceLoop, ha, cloneTask_eq] at h
      simp [List.findIdx_cons, ha, h]
    · simp [replaceLoop, ha] at h
      obtain ⟨ts2, h2, rfl⟩ := h
      simp [List.findIdx_cons, ha, ih ts2 h2]

theorem replaceLoop_map_ID (ts : List Task) (t : Task) (ts1 : List Task)
    (h : replaceLoop ts t = some ts1) :
    ts1.map (fun s => s.ID) = ts.map (fun s => s.ID) := by
  induction ts generalizing ts1 with
  | nil => simp [replaceLoop] at h
  | cons a as ih =>
    by_cases ha : a.ID = t.ID
    · simp [replaceLoop, ha, cloneTask] at h
      subst h
      simp [ha]
    · simp [replaceLoop, ha] at h
      obtain ⟨ts2, h2, rfl⟩ := h
      simp [ih ts2 h2]

theorem replaceLoop_length (ts : List Task) (t : Task) (ts1 : List Task)
    (h : replaceLoop ts t = some ts1) : ts1.length = ts.length := by
  have := congrArg List.length (replaceLoop_map_ID ts t ts1 h)
  simpa using this

theorem findLoop_none_iff (ts : List Task) (id : Int) :
    (findLoop ts id).2 = false ↔ ∀ s ∈ ts, s.ID ≠ id := by
  induction ts with
  | nil => simp [findLoop]
  | cons a as ih =>
    by_cases h : a.ID = id
    · simp [findLoop, h]
    · simp [findLoop, h, ih]

theorem findLoop_eq_find (ts : List Task) (id : Int) :
    findLoop ts id =
      match ts.find? (fun s => decide (s.ID = id)) with
      | some s => (some s, true)
      | none => (none, false) := by
  induction ts with
  | nil => simp [findLoop]
  | cons a as ih =>
    by_cases h : a.ID = id
    · simp [findLoop, h]
    · simp [findLoop, h, ih, List.find?_cons]

theorem idsUpTo_succ (n : Nat) : idsUpTo (n + 1) = idsUpTo n ++ [(n : Int) + 1] := by
  simp [idsUpTo, List.range_succ]

theorem mem_idsUpTo (n : Nat) (x : Int) : x ∈ idsUpTo n ↔ 1 ≤ x ∧ x ≤ (n : Int) := by
  simp only [idsUpTo, List.mem_map, List.mem_range]
  constructor
  · rintro ⟨i, hi, hx⟩
    omega
  · rintro ⟨h1, h2⟩
    refine ⟨(x - 1).toNat, ?_, ?_⟩ <;> omega

theorem Inv_init : Inv NewTaskManager := by
  simp [Inv, NewTaskManager, idsUpTo]

theorem Inv_Save (m : TaskManager) (t : Task) (hi : Inv m)
    (hb : t.ID = 0 → m.lastID < maxInt64) : Inv (m.Save t).m := by
  obtain ⟨h1, h2⟩ := hi
  by_cases h0 : t.ID = 0
  · have hw : wrap64 (m.lastID + 1) = m.lastID + 1 := by
      have := hb h0
      apply wrap64_of_range
      · unfold minInt64; omega
      · omega
    rw [Save_zero m t h0, hw]
    constructor
    · simp [idsUpTo_succ, h1, h2]
    · simp [h2]
  · rw [Save_nonzero m t h0]
    cases hr : replaceLoop m.tasks t with
    | none => exact ⟨h1, h2⟩
    | some ts =>
      constructor
      · simp [replaceLoop_map_ID _ _ _ hr, replaceLoop_length _ _ _ hr, h1]
      · simp [replaceLoop_length _ _ _ hr, h2]

theorem replaceLoop_spec (ts : List Task) (t : Task) (hex : ∃ s ∈ ts, s.ID = t.ID) :
    ∃ (i : Nat) (s0 : Task), ts[i]? = some s0 ∧ s0.ID = t.ID ∧
      (∀ (j : Nat) (s : Task), j < i → ts[j]? = some s → s.ID ≠ t.ID) ∧
      replaceLoop ts t = some (ts.set i t) := by
  induction ts with
  | nil => simp at hex
  | cons a as ih =>
    by_cases ha : a.ID = t.ID
    · refine ⟨0, a, by simp, ha, ?_, ?_⟩
      · intro j s hj
        omega
      · simp [replaceLoop, ha, cloneTask_eq]
    · have hex1 : ∃ s ∈ as, s.ID = t.ID := by
        obtain ⟨s, hs, hid⟩ := hex
        rcases List.mem_cons.mp hs with rfl | hs
        · exact absurd hid ha
        · exact ⟨s, hs, hid⟩
      obtain ⟨i, s0, h1, h2, h3, h4⟩ := ih hex1
      refine ⟨i + 1, s0, by simpa using h1, h2, ?_, ?_⟩
      · intro j s hj hs
        cases j with
        | zero =>
          simp at hs
          subst hs
          exact ha
        | succ k => exact h3 k s (by omega) (by simpa using hs)
      · simp [replaceLoop, ha, h4]

theorem findLoop_of_forall_ne (ts : List Task) (id : Int) (h : ∀ s ∈ ts, s.ID ≠ id) :
    findLoop ts id = (none, false) := by
  induction ts with
  | nil => rfl
  | cons a as ih =>
    have ha : a.ID ≠ id := h a (List.mem_cons_self _ _)
    simp only [findLoop, ha, if_false]
    exact ih (fun s hs => h s (List.mem_cons_of_mem _ hs))

theorem findLoop_append_of_forall_ne (xs ys : List Task) (id : Int)
    (h : ∀ s ∈ xs, s.ID ≠ id) : findLoop (xs ++ ys) id = findLoop ys id := by
  induction xs with
  | nil => rfl
  | cons a as ih =>
    have ha : a.ID ≠ id := h a (List.mem_cons_self _ _)
    simp only [List.cons_append, findLoop, ha, if_false]
    exact ih (fun s hs => h s (List.mem_cons_of_mem _ hs))

theorem findLoop_replaceLoop (ts : List Task) (t : Task) (ts1 : List Task)
    (h : replaceLoop ts t = some ts1) : findLoop ts1 t.ID = (some t, true) := by
  induction ts generalizing ts1 with
  | nil => simp [replaceLoop] at h
  | cons a as ih =>
    by_cases ha : a.ID = t.ID
    · simp [replaceLoop, ha, cloneTask_eq] at h
      subst h
      simp [findLoop]
    · simp [replaceLoop, ha] at h
      obtain ⟨ts2, h2, rfl⟩ := h
      simp only [findLoop, ha, if_false]
      exact ih ts2 h2

theorem findLoop_spec (ts : List Task) (id : Int) (hex : ∃ s ∈ ts, s.ID = id) :
    ∃ (i : Nat) (s0 : Task), ts[i]? = some s0 ∧ s0.ID = id ∧
      (∀ (j : Nat) (s : Task), j < i → ts[j]? = some s → s.ID ≠ id) ∧
      findLoop ts id = (some s0, true) := by
  induction ts with
  | nil => simp at hex
  | cons a as ih =>
    by_cases ha : a.ID = id
    · refine ⟨0, a, by simp, ha, ?_, by simp [findLoop, ha]⟩
      intro j s hj
      omega
    · have hex1 : ∃ s ∈ as, s.ID = id := by
        obtain ⟨s, hs, hid⟩ := hex
        rcases List.mem_cons.mp hs with rfl | hs
        · exact absurd hid ha
        · exact ⟨s, hs, hid⟩
      obtain ⟨i, s0, h1, h2, h3, h4⟩ := ih hex1
      refine ⟨i + 1, s0, by simpa using h1, h2, ?_, by simp [findLoop, ha, h4]⟩
      intro j s hj hs
      cases j with
      | zero =>
        simp at hs
        subst hs
        exact ha
      | succ k => exact h3 k s (by omega) (by simpa using hs)

theorem findLoop_true_iff (ts : List Task) (id : Int) :
    (findLoop ts id).2 = true ↔ ∃ s ∈ ts, s.ID = id := by
  have h := findLoop_none_iff ts id
  constructor
  · intro ht
    by_contra hne
    have : (findLoop ts id).2 = false := h.mpr (fun s hs hid => hne ⟨s, hs, hid⟩)
    rw [this] at ht
    exact absurd ht (by decide)
  · rintro ⟨s, hs, hid⟩
    cases hb : (findLoop ts id).2 with
    | true => rfl
    | false => exact absurd hid (h.mp hb s hs)

theorem findLoop_mem (ts : List Task) (id : Int) (s : Task)
    (h : findLoop ts id = (some s, true)) : s ∈ ts := by
  induction ts with
  | nil => simp [findLoop] at h
  | cons a as ih =>
    by_cases ha : a.ID = id
    · simp [findLoop, ha] at h
      simp [h]
    · simp only [findLoop, ha, if_false] at h
      exact List.mem_cons_of_mem _ (ih h)

theorem replaceLoop_idem (ts : List Task) (t : Task) (ts1 : List Task)
    (h : replaceLoop ts t = some ts1) : replaceLoop ts1 t = some ts1 := by
  induction ts generalizing ts1 with
  | nil => simp [replaceLoop] at h
  | cons a as ih =>
    by_cases ha : a.ID = t.ID
    · simp [replaceLoop, ha, cloneTask_eq] at h
      subst h
      simp [replaceLoop, cloneTask_eq]
    · simp [replaceLoop, ha] at h
      obtain ⟨ts2, h2, rfl⟩ := h
      simp [replaceLoop, ha, ih ts2 h2]

theorem Save_idem (m : TaskManager) (t : Task) (h0 : t.ID ≠ 0) :
    (m.Save t).m.Save t = m.Save t := by
  cases hr : replaceLoop m.tasks t with
  | none =>
    have h1 : m.Save t = ⟨m, t, some "uknown error"⟩ := by
      rw [Save_nonzero m t h0, hr]
    rw [h1]
    exact h1
  | some ts =>
    have h1 : m.Save t = ⟨⟨ts, m.lastID⟩, t, none⟩ := by
      rw [Save_nonzero m t h0, hr]
    rw [h1, Save_nonzero _ t h0]
    simp only [replaceLoop_idem m.tasks t ts hr]

theorem Save_of_mem (m : TaskManager) (t : Task) (h0 : t.ID ≠ 0)
    (hex : ∃ s ∈ m.tasks, s.ID = t.ID) :
    ∃ ts, replaceLoop m.tasks t = some ts ∧ m.Save t = ⟨⟨ts, m.lastID⟩, t, none⟩ ∧
      findLoop ts t.ID = (some t, true) ∧ ts.length = m.tasks.length := by
  cases hr : replaceLoop m.tasks t with
  | none =>
    obtain ⟨s, hs, hid⟩ := hex
    exact absurd hid ((replaceLoop_none_iff m.tasks t).mp hr s hs)
  | some ts =>
    refine ⟨ts, rfl, ?_, findLoop_replaceLoop m.tasks t ts hr, replaceLoop_length m.tasks t ts hr⟩
    rw [Save_nonzero m t h0, hr]

theorem Save_lastID_zero (m : TaskManager) (t : Task) (h0 : t.ID = 0)
    (hl : minInt64 ≤ m.lastID + 1) (hb : m.lastID < maxInt64) :
    (m.Save t).m.lastID = m.lastID + 1 ∧ (m.Save t).task.ID = m.lastID + 1 := by
  rw [Save_zero m t h0, wrap64_of_range _ hl (by omega)]
  exact ⟨rfl, rfl⟩

theorem Save_lastID_nonzero (m : TaskManager) (t : Task) (h0 : t.ID ≠ 0) :
    (m.Save t).m.lastID = m.lastID := by
  rw [Save_nonzero m t h0]
  cases hr : replaceLoop m.tasks t <;> rfl

theorem Inv_lastID_nonneg (m : TaskManager) (hi : Inv m) : 0 ≤ m.lastID := by
  rw [hi.2]
  exact Int.ofNat_nonneg _

theorem Inv_mem_ID (m : TaskManager) (hi : Inv m) (s : Task) (hs : s ∈ m.tasks) :
    1 ≤ s.ID ∧ s.ID ≤ m.lastID := by
  have hm : s.ID ∈ m.tasks.map (fun s => s.ID) := List.mem_map_of_mem _ hs
  rw [hi.1, mem_idsUpTo] at hm
  rw [hi.2]
  exact hm

theorem Inv_getElem_ID (m : TaskManager) (hi : Inv m) (i : Nat) (s : Task)
    (hs : m.tasks[i]? = some s) : s.ID = (i : Int) + 1 := by
  have h1 : (m.tasks.map (fun s => s.ID))[i]? = some s.ID := by
    simp [List.getElem?_map, hs]
  have hlt : i < m.tasks.length := by
    rcases Nat.lt_or_ge i m.tasks.length with h | h
    · exact h
    · rw [List.getElem?_eq_none h] at hs
      exact absurd hs (by simp)
  rw [hi.1, idsUpTo, List.getElem?_map, List.getElem?_range hlt] at h1
  simpa using h1.symm

theorem runSaves_spec (args : List Task) (m : TaskManager) (hi : Inv m)
    (hb : m.lastID + (countNew args : Int) ≤ maxInt64) :
    Inv (runSaves m args) ∧ (runSaves m args).lastID = m.lastID + (countNew args : Int) := by
  induction args generalizing m with
  | nil => simpa [runSaves, countNew] using hi
  | cons t ts ih =>
    have hn := Inv_lastID_nonneg m hi
    by_cases h0 : t.ID = 0
    · simp only [countNew, h0, if_true, Nat.cast_add, Nat.cast_one] at hb ⊢
      have hlt : m.lastID < maxInt64 := by omega
      have hl := (Save_lastID_zero m t h0 (by unfold minInt64; omega) hlt).1
      have := ih (m.Save t).m (Inv_Save m t hi (fun _ => hlt)) (by rw [hl]; omega)
      simp only [runSaves]
      refine ⟨this.1, ?_⟩
      rw [this.2, hl]
      omega
    · simp only [countNew, h0, if_false] at hb ⊢
      have hl := Save_lastID_nonzero m t h0
      have := ih (m.Save t).m (Inv_Save m t hi (fun h => absurd h h0)) (by rw [hl]; exact hb)
      simp only [runSaves]
      refine ⟨this.1, ?_⟩
      rw [this.2, hl]

theorem assignedIDs_spec (args : List Task) (m : TaskManager) (hi : Inv m)
    (hb : m.lastID + (countNew args : Int) ≤ maxInt64) :
    assignedIDs m args =
      (List.range (countNew args)).map (fun (i : Nat) => m.lastID + (i : Int) + 1) := by
  induction args generalizing m with
  | nil => simp [assignedIDs, countNew]
  | cons t ts ih =>
    have hn := Inv_lastID_nonneg m hi
    by_cases h0 : t.ID = 0
    · simp only [countNew, h0, if_true, Nat.cast_add, Nat.cast_one] at hb ⊢
      have hlt : m.lastID < maxInt64 := by omega
      have hl := Save_lastID_zero m t h0 (by unfold minInt64; omega) hlt
      have := ih (m.Save t).m (Inv_Save m t hi (fun _ => hlt)) (by rw [hl.1]; omega)
      simp only [assignedIDs, h0, if_true, this, hl.1, hl.2, List.range_succ_eq_map,
        List.map_cons, List.map_map]
      refine congrArg₂ _ (by simp) (List.map_congr_left ?_)
      intro i _
      simp only [Function.comp, Nat.cast_succ]
      omega
    · simp only [countNew, h0, if_false] at hb ⊢
      have hl := Save_lastID_nonzero m t h0
      have := ih (m.Save t).m (Inv_Save m t hi (fun h => absurd h h0)) (by rw [hl]; exact hb)
      simp only [assignedIDs, h0, if_false, this, hl]

theorem countNew_append (xs ys : List Task) : countNew (xs ++ ys) = countNew xs + countNew ys := by
  induction xs with
  | nil => simp [countNew]
  | cons a as ih =>
    by_cases h : a.ID = 0
    · simp [countNew, h, ih]; omega
    · simp [countNew, h, ih]

end task

/-! ## Identity assignment (claims C1 to C3) -/

namespace task

/-- C1: starting from the empty store, in every sequence of Save calls (new-record
saves arbitrarily interleaved with saves carrying a nonzero ID, successful or not)
the IDs assigned by the new-record saves are 1, 2, ..., N in call order, and the
new-record save that follows a prefix containing k - 1 new-record saves assigns
exactly k. The number of new-record saves is within the int64 range, so that the
counter does not wrap. -/
theorem C1_assigned_ids_sequential (args : List Task)
    (hb : (countNew args : Int) ≤ maxInt64) :
    assignedIDs NewTaskManager args = idsUpTo (countNew args) ∧
    ∀ (pre : List Task) (t : Task) (post : List Task), args = pre ++ t :: post → t.ID = 0 →
      ((runSaves NewTaskManager pre).Save t).task.ID = (countNew pre : Int) + 1 := by
  constructor
  · rw [assignedIDs_spec args NewTaskManager Inv_init (by simpa [NewTaskManager] using hb)]
    simp [NewTaskManager, idsUpTo]
  · intro pre t post hargs h0
    have hc : countNew args = countNew pre + (countNew post + 1) := by
      rw [hargs, countNew_append]
      simp [countNew, h0]
    have hpre : (countNew pre : Int) < maxInt64 := by omega
    have hs := runSaves_spec pre NewTaskManager Inv_init
      (by simp only [NewTaskManager]; omega)
    have hl : (runSaves NewTaskManager pre).lastID = (countNew pre : Int) := by
      rw [hs.2]
      simp [NewTaskManager]
    have := (Save_lastID_zero (runSaves NewTaskManager pre) t h0
      (by rw [hl]; unfold minInt64; omega) (by rw [hl]; exact hpre)).2
    rw [this, hl]

/-- Instance of C1 on the sample sequence: its new-record saves receive 1 and 2. -/
theorem C1_assigned_ids_sequential_witness :
    (countNew sampleCalls : Int) ≤ maxInt64 ∧
    assignedIDs NewTaskManager sampleCalls = idsUpTo (countNew sampleCalls) ∧
    ((runSaves NewTaskManager [⟨0, "write", false⟩, ⟨7, "stray", true⟩]).Save
        ⟨0, "read", false⟩).task.ID
      = (countNew [⟨0, "write", false⟩, ⟨7, "stray", true⟩] : Int) + 1 :=
  ⟨by decide,
    (C1_assigned_ids_sequential sampleCalls (by decide)).1,
    (C1_assigned_ids_sequential sampleCalls (by decide)).2
      [⟨0, "write", false⟩, ⟨7, "stray", true⟩] ⟨0, "read", false⟩ [⟨1, "rewrite", true⟩]
      rfl rfl⟩

/-- C2: in every store state reached from the empty store by a sequence of Save calls
with arbitrary arguments (negative and never-assigned IDs included), every stored
task has a strictly positive ID and two stored tasks at different positions have
different IDs; the counter stays within int64 (at most 2^63 - 1 new records). -/
theorem C2_stored_ids_positive_unique (args : List Task)
    (hb : (countNew args : Int) ≤ maxInt64) :
    (∀ s ∈ (runSaves NewTaskManager args).tasks, 0 < s.ID) ∧
    (∀ (i j : Nat) (s1 s2 : Task),
      (runSaves NewTaskManager args).tasks[i]? = some s1 →
      (runSaves NewTaskManager args).tasks[j]? = some s2 →
      i ≠ j → s1.ID ≠ s2.ID) := by
  have hs := (runSaves_spec args NewTaskManager Inv_init
    (by simpa [NewTaskManager] using hb)).1
  constructor
  · intro s hmem
    have := (Inv_mem_ID _ hs s hmem).1
    omega
  · intro i j s1 s2 h1 h2 hij
    rw [Inv_getElem_ID _ hs i s1 h1, Inv_getElem_ID _ hs j s2 h2]
    omega

/-- Instance of C2 on the sample sequence, at the two stored records. -/
theorem C2_stored_ids_positive_unique_witness :
    (countNew sampleCalls : Int) ≤ maxInt64 ∧
    (∀ s ∈ (runSaves NewTaskManager sampleCalls).tasks, 0 < s.ID) ∧
    (⟨1, "rewrite", true⟩ : Task).ID ≠ (⟨2, "read", false⟩ : Task).ID :=
  ⟨by decide,
    (C2_stored_ids_positive_unique sampleCalls (by decide)).1,
    (C2_stored_ids_positive_unique sampleCalls (by decide)).2 0 1
      ⟨1, "rewrite", true⟩ ⟨2, "read", false⟩ (by decide) (by decide) (by decide)⟩

/-- C3, the claim as stated fails: on the store with no task and lastID at the int64
maximum, a Save with ID 0 wraps the counter to the int64 minimum, so lastID after
the call is below lastID before it. -/
theorem C3_counter_wraps_counterexample :
    isInt64 (⟨[], maxInt64⟩ : TaskManager).lastID ∧
    ((⟨[], maxInt64⟩ : TaskManager).Save ⟨0, "write", false⟩).m.lastID = minInt64 ∧
    ¬ ((⟨[], maxInt64⟩ : TaskManager).lastID
        ≤ ((⟨[], maxInt64⟩ : TaskManager).Save ⟨0, "write", false⟩).m.lastID) := by
  decide

/-- C3, amended: (a) for every store state a Save call with a nonzero ID leaves lastID
unchanged and a Save call with ID 0 sets it to its int64 increment; for every store
state whose lastID is an int64 below the maximum 2^63 - 1, lastID after a Save call
is at least lastID before it, and exactly 1 more when the argument has ID 0;
(b) in every state reached from the empty store, the ID given by a new-record Save
is strictly greater than every ID assigned before and than every ID currently
stored, so that no assigned ID is reused, also after replacements. -/
theorem C3_counter_monotone_ids_fresh :
    (∀ (m : TaskManager) (t : Task), t.ID ≠ 0 → (m.Save t).m.lastID = m.lastID) ∧
    (∀ (m : TaskManager) (t : Task), t.ID = 0 →
      (m.Save t).m.lastID = wrap64 (m.lastID + 1)) ∧
    (∀ (m : TaskManager) (t : Task), isInt64 m.lastID → m.lastID < maxInt64 →
      m.lastID ≤ (m.Save t).m.lastID ∧
      (t.ID = 0 → (m.Save t).m.lastID = m.lastID + 1)) ∧
    (∀ (args : List Task) (t : Task), (countNew args : Int) < maxInt64 → t.ID = 0 →
      (∀ x ∈ assignedIDs NewTaskManager args,
        x < ((runSaves NewTaskManager args).Save t).task.ID) ∧
      (∀ s ∈ (runSaves NewTaskManager args).tasks,
        s.ID < ((runSaves NewTaskManager args).Save t).task.ID)) := by
  refine ⟨fun m t h0 => Save_lastID_nonzero m t h0, ?_, ?_, ?_⟩
  · intro m t h0
    rw [Save_zero m t h0]
  · intro m t hr hb
    have hl : minInt64 ≤ m.lastID + 1 := by
      have := hr.1
      omega
    by_cases h0 : t.ID = 0
    · have := (Save_lastID_zero m t h0 hl hb).1
      exact ⟨by omega, fun _ => this⟩
    · have := Save_lastID_nonzero m t h0
      exact ⟨by omega, fun h => absurd h h0⟩
  · intro args t hb h0
    have hs := runSaves_spec args NewTaskManager Inv_init
      (by simp only [NewTaskManager]; omega)
    have hl : (runSaves NewTaskManager args).lastID = (countNew args : Int) := by
      rw [hs.2]
      simp [NewTaskManager]
    have hid := (Save_lastID_zero (runSaves NewTaskManager args) t h0
      (by rw [hl]; unfold minInt64; omega) (by rw [hl]; exact hb)).2
    rw [hid, hl]
    constructor
    · intro x hx
      rw [assignedIDs_spec args NewTaskManager Inv_init
        (by simp only [NewTaskManager]; omega)] at hx
      simp only [NewTaskManager, List.mem_map, List.mem_range] at hx
      obtain ⟨i, hi, rfl⟩ := hx
      omega
    · intro s hmem
      have := (Inv_mem_ID _ hs.1 s hmem).2
      rw [hl] at this
      omega

/-- Instance of C3: a new-record save on the empty store raises the counter from 0 to
1, and after the sample sequence a further new record gets an ID above 1 and 2. -/
theorem C3_counter_monotone_ids_fresh_witness :
    (isInt64 NewTaskManager.lastID ∧ NewTaskManager.lastID < maxInt64 ∧
      (⟨0, "write", false⟩ : Task).ID = 0) ∧
    (NewTaskManager.Save ⟨0, "write", false⟩).m.lastID = NewTaskManager.lastID + 1 ∧
    ((countNew sampleCalls : Int) < maxInt64) ∧
    (∀ x ∈ assignedIDs NewTaskManager sampleCalls,
      x < ((runSaves NewTaskManager sampleCalls).Save ⟨0, "more", false⟩).task.ID) :=
  ⟨⟨by decide, by decide, rfl⟩,
    (C3_counter_monotone_ids_fresh.2.2.1 NewTaskManager ⟨0, "write", false⟩
      (by decide) (by decide)).2 rfl,
    by decide,
    (C3_counter_monotone_ids_fresh.2.2.2 sampleCalls ⟨0, "more", false⟩ (by decide) rfl).1⟩

end task

/-! ## Replacement and failure of Save (claims C5 and C6) -/

namespace task

/-- C5: for every store state and every task t with a nonzero ID that some stored
record carries, Save returns no error and leaves the caller's task, the length of
the sequence and lastID unchanged; the first position i whose record has ID t.ID
holds (t.ID, t.Title, t.Done) afterwards, and every other position is unchanged. -/
theorem C5_save_existing_replaces_in_place (m : TaskManager) (t : Task) (h0 : t.ID ≠ 0)
    (hex : ∃ s ∈ m.tasks, s.ID = t.ID) :
    (m.Save t).err = none ∧
    (m.Save t).task = t ∧
    (m.Save t).m.lastID = m.lastID ∧
    (m.Save t).m.tasks.length = m.tasks.length ∧
    ∃ (i : Nat), i < m.tasks.length ∧
      (∃ s0, m.tasks[i]? = some s0 ∧ s0.ID = t.ID) ∧
      (∀ (j : Nat) (s : Task), j < i → m.tasks[j]? = some s → s.ID ≠ t.ID) ∧
      (m.Save t).m.tasks[i]? = some ⟨t.ID, t.Title, t.Done⟩ ∧
      (∀ (j : Nat), j ≠ i → (m.Save t).m.tasks[j]? = m.tasks[j]?) := by
  obtain ⟨i, s0, h1, h2, h3, h4⟩ := replaceLoop_spec m.tasks t hex
  have hi : i < m.tasks.length := by
    rcases Nat.lt_or_ge i m.tasks.length with h | h
    · exact h
    · rw [List.getElem?_eq_none h] at h1
      exact absurd h1 (by simp)
  rw [Save_nonzero m t h0, h4]
  refine ⟨rfl, rfl, rfl, by simp, i, hi, ⟨s0, h1, h2⟩, h3, ?_, ?_⟩
  · simp [List.getElem?_set, hi]
  · intro j hj
    simp [List.getElem?_set, Ne.symm hj]

/-- Instance of C5: the second of three records is replaced. -/
theorem C5_save_existing_replaces_in_place_witness :
    (⟨2, "read twice", true⟩ : Task).ID ≠ 0 ∧
    ((⟨[⟨1, "write", false⟩, ⟨2, "read", false⟩, ⟨3, "rest", false⟩], 3⟩ : TaskManager).Save
        ⟨2, "read twice", true⟩).m.lastID
      = (⟨[⟨1, "write", false⟩, ⟨2, "read", false⟩, ⟨3, "rest", false⟩], 3⟩ :
          TaskManager).lastID :=
  ⟨by decide,
    (C5_save_existing_replaces_in_place
      ⟨[⟨1, "write", false⟩, ⟨2, "read", false⟩, ⟨3, "rest", false⟩], 3⟩
      ⟨2, "read twice", true⟩ (by decide) ⟨⟨2, "read", false⟩, by decide, rfl⟩).2.2.1⟩

/-- C6: for every store state and task t, Save returns an error if and only if t.ID
is nonzero and no stored record has ID t.ID; the error is then the one with message
"uknown error", and the store (sequence and lastID) and the caller's task are
unchanged. -/
theorem C6_save_error_iff_unknown_id (m : TaskManager) (t : Task) :
    ((m.Save t).err ≠ none ↔ (t.ID ≠ 0 ∧ ∀ s ∈ m.tasks, s.ID ≠ t.ID)) ∧
    ((m.Save t).err ≠ none →
      (m.Save t).err = some "uknown error" ∧ (m.Save t).m = m ∧ (m.Save t).task = t) := by
  by_cases h0 : t.ID = 0
  · rw [Save_zero m t h0]
    simp [h0]
  · rw [Save_nonzero m t h0]
    cases hr : replaceLoop m.tasks t with
    | none =>
      have hall := (replaceLoop_none_iff m.tasks t).mp hr
      refine ⟨⟨fun _ => ⟨h0, hall⟩, fun _ => by simp⟩, fun _ => ⟨rfl, rfl, rfl⟩⟩
    | some ts =>
      have hne : ¬ ∀ s ∈ m.tasks, s.ID ≠ t.ID := by
        intro hall
        rw [(replaceLoop_none_iff m.tasks t).mpr hall] at hr
        exact absurd hr (by simp)
      simp [hne]

/-- Instance of C6: a save with the unknown ID 7 fails and leaves the store as it was. -/
theorem C6_save_error_iff_unknown_id_witness :
    ((⟨[⟨1, "write", false⟩], 1⟩ : TaskManager).Save ⟨7, "stray", true⟩).err ≠ none ∧
    ((⟨[⟨1, "write", false⟩], 1⟩ : TaskManager).Save ⟨7, "stray", true⟩).m
      = ⟨[⟨1, "write", false⟩], 1⟩ :=
  ⟨by decide,
    ((C6_save_error_iff_unknown_id ⟨[⟨1, "write", false⟩], 1⟩ ⟨7, "stray", true⟩).2
      (by decide)).2.1⟩

end task

/-! ## Lookup, construction and the creation handler (claims C7 to C10) -/

namespace task

/-- C7: in every store state reached from the empty store by Save calls, Find reports
not found (nil, false) for every id that no new-record Save of the sequence
assigned; in particular for every id that is zero or negative and for every id
greater than lastID. -/
theorem C7_find_unassigned_not_found (args : List Task)
    (hb : (countNew args : Int) ≤ maxInt64) (id : Int) :
    (id ∉ assignedIDs NewTaskManager args →
      (runSaves NewTaskManager args).Find id = (none, false)) ∧
    (id ≤ 0 ∨ (runSaves NewTaskManager args).lastID < id →
      (runSaves NewTaskManager args).Find id = (none, false)) := by
  have hb0 : NewTaskManager.lastID + (countNew args : Int) ≤ maxInt64 := by
    simpa [NewTaskManager] using hb
  have hs := runSaves_spec args NewTaskManager Inv_init hb0
  have hl : (runSaves NewTaskManager args).lastID = (countNew args : Int) := by
    rw [hs.2]
    simp [NewTaskManager]
  constructor
  · intro hna
    apply findLoop_of_forall_ne
    intro s hmem hid
    apply hna
    rw [assignedIDs_spec args NewTaskManager Inv_init hb0]
    have h12 := Inv_mem_ID _ hs.1 s hmem
    rw [hl, hid] at h12
    simp only [NewTaskManager, List.mem_map, List.mem_range]
    refine ⟨(id - 1).toNat, ?_, ?_⟩ <;> omega
  · intro hid
    apply findLoop_of_forall_ne
    intro s hmem hsid
    have h12 := Inv_mem_ID _ hs.1 s hmem
    rw [hsid] at h12
    omega

/-- Instance of C7 on the sample sequence: 7 was used in a failed save, never assigned. -/
theorem C7_find_unassigned_not_found_witness :
    (countNew sampleCalls : Int) ≤ maxInt64 ∧
    (7 : Int) ∉ assignedIDs NewTaskManager sampleCalls ∧
    (runSaves NewTaskManager sampleCalls).Find 7 = (none, false) :=
  ⟨by decide, by decide,
    (C7_find_unassigned_not_found sampleCalls (by decide) 7).1 (by decide)⟩

/-- C8: NewTask fails if and only if the title is the empty string, with the error
"empty title"; for every other title it returns the task with ID 0, that title and
Done false. The result is a function of the title alone: no store is an input or
an output of NewTask. -/
theorem C8_new_task_iff_nonempty (title : String) :
    ((∃ e, NewTask title = Except.error e) ↔ title = "") ∧
    (title = "" → NewTask title = Except.error "empty title") ∧
    (title ≠ "" → NewTask title = Except.ok ⟨0, title, false⟩) := by
  by_cases h : title = ""
  · simp [NewTask, h]
  · simp [NewTask, h]

/-- Instance of C8 at a non-empty title. -/
theorem C8_new_task_iff_nonempty_witness :
    "Learn Go" ≠ "" ∧ NewTask "Learn Go" = Except.ok ⟨0, "Learn Go", false⟩ :=
  ⟨by decide, (C8_new_task_iff_nonempty "Learn Go").2.2 (by decide)⟩

/-- C9: round trip of Save and Find. In every store state reached from the empty store
by Save calls, after a Save of t that returns no error, Find at the ID that t
carries after the call returns found = true and the record equal to t after the call
(same ID, Title and Done). On the empty store, NewTask "Learn Go" followed by Save
and Find 1 yields the record (1, "Learn Go", false). -/
theorem C9_save_find_round_trip (args : List Task)
    (hb : (countNew args : Int) ≤ maxInt64) (t : Task)
    (hok : ((runSaves NewTaskManager args).Save t).err = none) :
    ((runSaves NewTaskManager args).Save t).m.Find
        ((runSaves NewTaskManager args).Save t).task.ID
      = (some ((runSaves NewTaskManager args).Save t).task, true) ∧
    (NewTask "Learn Go" = Except.ok ⟨0, "Learn Go", false⟩ ∧
      (NewTaskManager.Save ⟨0, "Learn Go", false⟩).task.ID = 1 ∧
      (NewTaskManager.Save ⟨0, "Learn Go", false⟩).m.Find 1
        = (some ⟨1, "Learn Go", false⟩, true)) := by
  refine ⟨?_, by simp [NewTask], by decide, by decide⟩
  have hs := runSaves_spec args NewTaskManager Inv_init (by simpa [NewTaskManager] using hb)
  have hl : (runSaves NewTaskManager args).lastID = (countNew args : Int) := by
    rw [hs.2]
    simp [NewTaskManager]
  generalize runSaves NewTaskManager args = m at hs hl hok ⊢
  by_cases h0 : t.ID = 0
  · rw [Save_zero m t h0]
    simp only [TaskManager.Find]
    rw [findLoop_append_of_forall_ne]
    · simp [findLoop]
    · intro s hmem hsid
      have h12 := Inv_mem_ID _ hs.1 s hmem
      rw [hsid, hl] at h12
      unfold wrap64 at h12
      unfold maxInt64 at hb
      omega
  · rw [Save_nonzero m t h0] at hok ⊢
    cases hr : replaceLoop m.tasks t with
    | none => simp [hr] at hok
    | some ts => exact findLoop_replaceLoop m.tasks t ts hr

/-- Instance of C9: the replacement that ends the sample sequence, looked up again. -/
theorem C9_save_find_round_trip_witness :
    (countNew [⟨0, "write", false⟩, ⟨0, "read", false⟩] : Int) ≤ maxInt64 ∧
    ((runSaves NewTaskManager [⟨0, "write", false⟩, ⟨0, "read", false⟩]).Save
      ⟨1, "rewrite", true⟩).err = none ∧
    ((runSaves NewTaskManager [⟨0, "write", false⟩, ⟨0, "read", false⟩]).Save
        ⟨1, "rewrite", true⟩).m.Find
        ((runSaves NewTaskManager [⟨0, "write", false⟩, ⟨0, "read", false⟩]).Save
          ⟨1, "rewrite", true⟩).task.ID
      = (some ((runSaves NewTaskManager [⟨0, "write", false⟩, ⟨0, "read", false⟩]).Save
          ⟨1, "rewrite", true⟩).task, true) :=
  ⟨by decide, by decide,
    (C9_save_find_round_trip [⟨0, "write", false⟩, ⟨0, "read", false⟩] (by decide)
      ⟨1, "rewrite", true⟩ (by decide)).1⟩

end task

namespace server

/-- C10: the creation handler. For every store state: a body that fails to decode and
an empty decoded title both give a badRequest error and leave the store unchanged;
a non-empty title gives no error, and the store gains exactly one record
(new lastID, title, false) appended at the end, where the new lastID is the int64
increment of the old one (lastID + 1 for every counter below the int64 maximum).
The handler never returns an error other than badRequest. -/
theorem C10_new_task_handler (m : task.TaskManager) :
    (∀ (e : String), NewTask m (Except.error e) = (m, some (HandlerError.badRequest e))) ∧
    NewTask m (Except.ok "") = (m, some (HandlerError.badRequest "empty title")) ∧
    (∀ (title : String), title ≠ "" →
      (NewTask m (Except.ok title)).2 = none ∧
      (NewTask m (Except.ok title)).1.tasks
        = m.tasks ++ [⟨(NewTask m (Except.ok title)).1.lastID, title, false⟩] ∧
      (NewTask m (Except.ok title)).1.lastID = task.wrap64 (m.lastID + 1) ∧
      (task.isInt64 m.lastID → m.lastID < task.maxInt64 →
        (NewTask m (Except.ok title)).1.lastID = m.lastID + 1)) ∧
    (∀ (decoded : Except String String) (e : HandlerError),
      (NewTask m decoded).2 = some e → ∃ msg, e = HandlerError.badRequest msg) := by
  have hsave : ∀ (title : String), title ≠ "" →
      NewTask m (Except.ok title) =
        (⟨m.tasks ++ [⟨task.wrap64 (m.lastID + 1), title, false⟩],
          task.wrap64 (m.lastID + 1)⟩, none) := by
    intro title ht
    simp [NewTask, task.NewTask, ht, task.Save_zero]
  refine ⟨fun e => rfl, by simp [NewTask, task.NewTask], ?_, ?_⟩
  · intro title ht
    rw [hsave title ht]
    refine ⟨rfl, rfl, rfl, fun hr hlt => ?_⟩
    exact task.wrap64_of_range _ (by have := hr.1; omega) (by omega)
  · intro decoded e he
    cases decoded with
    | error msg =>
      simp only [NewTask, Option.some.injEq] at he
      exact ⟨msg, he.symm⟩
    | ok title =>
      by_cases ht : title = ""
      · subst ht
        simp only [NewTask, task.NewTask, if_true, Option.some.injEq] at he
        exact ⟨"empty title", he.symm⟩
      · rw [hsave title ht] at he
        simp at he

/-- Instance of C10: a title posted to a store holding one record, counter 1. -/
theorem C10_new_task_handler_witness :
    "Buy bread" ≠ "" ∧
    task.isInt64 (⟨[⟨1, "Learn Go", false⟩], 1⟩ : task.TaskManager).lastID ∧
    (⟨[⟨1, "Learn Go", false⟩], 1⟩ : task.TaskManager).lastID < task.maxInt64 ∧
    (NewTask ⟨[⟨1, "Learn Go", false⟩], 1⟩ (Except.ok "Buy bread")).1.lastID
      = (⟨[⟨1, "Learn Go", false⟩], 1⟩ : task.TaskManager).lastID + 1 :=
  ⟨by decide, by decide, by decide,
    ((C10_new_task_handler ⟨[⟨1, "Learn Go", false⟩], 1⟩).2.2.1 "Buy bread"
      (by decide)).2.2.2 (by decide) (by decide)⟩

end server

/-! ## Error paths of the handlers and the lookup (claims C11 to C13, C16) -/

namespace server

/-- C11: for every store state, every parsed path id and every decoded body task whose
ID differs from id, the update handler returns the badRequest error "inconsistent
task IDs", to which errorHandler answers with status 400, and leaves the store
unchanged; neither id nor the ID of the body has to be that of a stored task. -/
theorem C11_update_id_mismatch_bad_request (m : task.TaskManager) (id : Int)
    (t : task.Task) (h : t.ID ≠ id) :
    UpdateTask m (Except.ok id) (Except.ok t)
      = (m, some (HandlerError.badRequest "inconsistent task IDs")) ∧
    errorHandler (UpdateTask m (Except.ok id) (Except.ok t)).2
      = ⟨some 400, some "inconsistent task IDs", none⟩ := by
  have hu : UpdateTask m (Except.ok id) (Except.ok t)
      = (m, some (HandlerError.badRequest "inconsistent task IDs")) := by
    simp [UpdateTask, h]
  rw [hu]
  exact ⟨rfl, rfl⟩

/-- Instance of C11: PUT at path id 1 with a body of ID 2, both stored. -/
theorem C11_update_id_mismatch_bad_request_witness :
    (⟨2, "read", true⟩ : task.Task).ID ≠ 1 ∧
    UpdateTask ⟨[⟨1, "write", false⟩, ⟨2, "read", false⟩], 2⟩ (Except.ok 1)
        (Except.ok ⟨2, "read", true⟩)
      = (⟨[⟨1, "write", false⟩, ⟨2, "read", false⟩], 2⟩,
          some (HandlerError.badRequest "inconsistent task IDs")) :=
  ⟨by decide,
    (C11_update_id_mismatch_bad_request ⟨[⟨1, "write", false⟩, ⟨2, "read", false⟩], 2⟩ 1
      ⟨2, "read", true⟩ (by decide)).1⟩

/-- C12: for every store state and every parsed path id that no stored task carries,
the lookup handler returns notFound without encoding anything, the update handler
called with a body whose ID equals id returns notFound, both leave the store
unchanged, and errorHandler answers notFound with status 404 and the fixed message
"task not found". -/
theorem C12_unknown_id_not_found (m : task.TaskManager) (id : Int)
    (h : ∀ s ∈ m.tasks, s.ID ≠ id) :
    (∀ (encodeErr : Option String),
      GetTask m (Except.ok id) encodeErr = ⟨m, none, some HandlerError.notFound⟩) ∧
    (∀ (t : task.Task), t.ID = id →
      UpdateTask m (Except.ok id) (Except.ok t) = (m, some HandlerError.notFound)) ∧
    errorHandler (some HandlerError.notFound) = ⟨some 404, some "task not found", none⟩ := by
  have hf : (m.Find id).2 = false := (task.findLoop_none_iff m.tasks id).mpr h
  refine ⟨fun encodeErr => ?_, fun t ht => ?_, rfl⟩
  · simp [GetTask, hf]
  · simp [UpdateTask, ht, hf]

/-- Instance of C12: id 999 on a store holding the tasks 1 and 2. -/
theorem C12_unknown_id_not_found_witness :
    (∀ s ∈ (⟨[⟨1, "write", false⟩, ⟨2, "read", false⟩], 2⟩ : task.TaskManager).tasks,
      s.ID ≠ 999) ∧
    GetTask ⟨[⟨1, "write", false⟩, ⟨2, "read", false⟩], 2⟩ (Except.ok 999) none
      = ⟨⟨[⟨1, "write", false⟩, ⟨2, "read", false⟩], 2⟩, none, some HandlerError.notFound⟩ :=
  ⟨by decide,
    (C12_unknown_id_not_found ⟨[⟨1, "write", false⟩, ⟨2, "read", false⟩], 2⟩ 999
      (by decide)).1 none⟩

/-- C13: errorHandler makes no call of http.Error for a nil error; for a badRequest it
answers status 400 with the message of the wrapped error; for a notFound status 404
with "task not found"; for every other error status 500 with the message "oops",
the error itself going to the log only. The answer to two errors that are neither
badRequest nor notFound is therefore the same whatever their messages. -/
theorem C13_error_handler_mapping :
    errorHandler none = ⟨none, none, none⟩ ∧
    (∀ (msg : String),
      errorHandler (some (HandlerError.badRequest msg)) = ⟨some 400, some msg, none⟩) ∧
    errorHandler (some HandlerError.notFound) = ⟨some 404, some "task not found", none⟩ ∧
    (∀ (msg : String),
      errorHandler (some (HandlerError.other msg)) = ⟨some 500, some "oops", some msg⟩) ∧
    (∀ (msg1 msg2 : String),
      (errorHandler (some (HandlerError.other msg1))).status
        = (errorHandler (some (HandlerError.other msg2))).status ∧
      (errorHandler (some (HandlerError.other msg1))).message
        = (errorHandler (some (HandlerError.other msg2))).message) :=
  ⟨rfl, fun _ => rfl, rfl, fun _ => rfl, fun _ _ => ⟨rfl, rfl⟩⟩

end server

namespace task

/-- C16: for every store state, reachable or not, and every id, Find reports found
exactly when some stored record has that ID; it then returns the first record in
sequence order whose ID is id, and (nil, false) otherwise. Find returns no store:
it reads the sequence and writes nothing. -/
theorem C16_find_first_match (m : TaskManager) (id : Int) :
    ((m.Find id).2 = true ↔ ∃ s ∈ m.tasks, s.ID = id) ∧
    ((m.Find id).2 = true →
      ∃ (i : Nat) (s0 : Task), m.tasks[i]? = some s0 ∧ s0.ID = id ∧
        (∀ (j : Nat) (s : Task), j < i → m.tasks[j]? = some s → s.ID ≠ id) ∧
        m.Find id = (some s0, true)) ∧
    ((m.Find id).2 = false → m.Find id = (none, false)) := by
  refine ⟨findLoop_true_iff m.tasks id, fun ht => ?_, fun hf => ?_⟩
  · exact findLoop_spec m.tasks id ((findLoop_true_iff m.tasks id).mp ht)
  · exact findLoop_of_forall_ne m.tasks id ((findLoop_none_iff m.tasks id).mp hf)

/-- Instance of C16 on a store that holds the ID 2 twice: the first record is returned. -/
theorem C16_find_first_match_witness :
    ((⟨[⟨1, "write", false⟩, ⟨2, "read", false⟩, ⟨2, "rest", true⟩], 5⟩ :
      TaskManager).Find 2).2 = true ∧
    ∃ (i : Nat) (s0 : Task),
      (⟨[⟨1, "write", false⟩, ⟨2, "read", false⟩, ⟨2, "rest", true⟩], 5⟩ :
        TaskManager).tasks[i]? = some s0 ∧ s0.ID = 2 ∧
      (∀ (j : Nat) (s : Task), j < i →
        (⟨[⟨1, "write", false⟩, ⟨2, "read", false⟩, ⟨2, "rest", true⟩], 5⟩ :
          TaskManager).tasks[j]? = some s → s.ID ≠ 2) ∧
      (⟨[⟨1, "write", false⟩, ⟨2, "read", false⟩, ⟨2, "rest", true⟩], 5⟩ :
        TaskManager).Find 2 = (some s0, true) :=
  ⟨by decide,
    (C16_find_first_match ⟨[⟨1, "write", false⟩, ⟨2, "read", false⟩, ⟨2, "rest", true⟩], 5⟩
      2).2.1 (by decide)⟩

end task

/-! ## Auxiliary lemmas on the handlers -/

namespace server

theorem UpdateTask_found (m : task.TaskManager) (t : task.Task)
    (hf : (m.Find t.ID).2 = true) :
    UpdateTask m (Except.ok t.ID) (Except.ok t)
      = ((m.Save t).m, (m.Save t).err.map HandlerError.other) := by
  simp [UpdateTask, hf]

theorem UpdateTask_not_found (m : task.TaskManager) (t : task.Task)
    (hf : (m.Find t.ID).2 = false) :
    UpdateTask m (Except.ok t.ID) (Except.ok t) = (m, some HandlerError.notFound) := by
  simp [UpdateTask, hf]

theorem UpdateTask_mismatch (m : task.TaskManager) (id : Int) (t : task.Task)
    (h : t.ID ≠ id) :
    UpdateTask m (Except.ok id) (Except.ok t)
      = (m, some (HandlerError.badRequest "inconsistent task IDs")) := by
  simp [UpdateTask, h]

theorem NewTask_titles (m : task.TaskManager) (d : Except String String)
    (h : ∀ s ∈ m.tasks, s.Title ≠ "") : ∀ s ∈ (NewTask m d).1.tasks, s.Title ≠ "" := by
  cases d with
  | error e => exact h
  | ok title =>
    by_cases ht : title = ""
    · subst ht
      simpa [NewTask, task.NewTask] using h
    · intro s hs
      simp only [NewTask, task.NewTask, ht, if_false, task.Save_zero, List.mem_append,
        List.mem_singleton] at hs
      rcases hs with hs | rfl
      · exact h s hs
      · exact ht

theorem runNewTask_titles (ds : List (Except String String)) (m : task.TaskManager)
    (h : ∀ s ∈ m.tasks, s.Title ≠ "") : ∀ s ∈ (runNewTask m ds).tasks, s.Title ≠ "" := by
  induction ds generalizing m with
  | nil => exact h
  | cons d ds ih => exact ih (NewTask m d).1 (NewTask_titles m d h)

end server

/-! ## Reachable states and the update handler (claims C17 to C20) -/

namespace server

/-- C17, the claim as stated fails: on a store whose first record has ID 0, the update
handler called with path id 0 and the body (0, "", true) returns no error, but it
appends a new record instead of replacing, and Find 0 still returns the old record
with its non-empty title. -/
theorem C17_update_id_zero_counterexample :
    (∃ s ∈ (⟨[⟨0, "draft", false⟩], 0⟩ : task.TaskManager).tasks, s.ID = 0) ∧
    UpdateTask ⟨[⟨0, "draft", false⟩], 0⟩ (Except.ok 0) (Except.ok ⟨0, "", true⟩)
      = (⟨[⟨0, "draft", false⟩, ⟨1, "", true⟩], 1⟩, none) ∧
    (UpdateTask ⟨[⟨0, "draft", false⟩], 0⟩ (Except.ok 0) (Except.ok ⟨0, "", true⟩)).1.Find 0
      = (some ⟨0, "draft", false⟩, true) ∧
    (⟨0, "draft", false⟩ : task.Task).Title ≠ "" := by
  decide

/-- C17, amended: updates do not validate the title again. For every store state
containing a task with a nonzero ID id and every boolean d, the update handler
called with path id and body (id, "", d) returns no error, and afterwards Find id
returns the record (id, "", d), a stored record with an empty title. Every state
reached from the empty store through the creation handler alone has only non-empty
titles, so the update handler does not preserve that property. -/
theorem C17_update_accepts_empty_title (m : task.TaskManager) (id : Int) (d : Bool)
    (hid : id ≠ 0) (hex : ∃ s ∈ m.tasks, s.ID = id) :
    (UpdateTask m (Except.ok id) (Except.ok ⟨id, "", d⟩)).2 = none ∧
    (UpdateTask m (Except.ok id) (Except.ok ⟨id, "", d⟩)).1.Find id
      = (some ⟨id, "", d⟩, true) ∧
    (∃ s ∈ (UpdateTask m (Except.ok id) (Except.ok ⟨id, "", d⟩)).1.tasks, s.Title = "") ∧
    (∀ (ds : List (Except String String)),
      ∀ s ∈ (runNewTask task.NewTaskManager ds).tasks, s.Title ≠ "") := by
  have hf : (m.Find (⟨id, "", d⟩ : task.Task).ID).2 = true :=
    (task.findLoop_true_iff m.tasks id).mpr hex
  obtain ⟨ts, _, hsave, hfind, _⟩ := task.Save_of_mem m ⟨id, "", d⟩ hid hex
  have hu := UpdateTask_found m ⟨id, "", d⟩ hf
  simp only [hsave] at hu
  rw [hu]
  refine ⟨rfl, hfind, ⟨⟨id, "", d⟩, task.findLoop_mem ts id _ hfind, rfl⟩, ?_⟩
  intro ds
  exact runNewTask_titles ds task.NewTaskManager (by simp [task.NewTaskManager])

/-- Instance of C17: a task created through the creation handler loses its title. -/
theorem C17_update_accepts_empty_title_witness :
    (1 : Int) ≠ 0 ∧
    (∃ s ∈ (runNewTask task.NewTaskManager [Except.ok "Learn Go"]).tasks, s.ID = 1) ∧
    (UpdateTask (runNewTask task.NewTaskManager [Except.ok "Learn Go"]) (Except.ok 1)
        (Except.ok ⟨1, "", true⟩)).1.Find 1
      = (some ⟨1, "", true⟩, true) :=
  ⟨by decide, by decide,
    (C17_update_accepts_empty_title (runNewTask task.NewTaskManager [Except.ok "Learn Go"])
      1 true (by decide) (by decide)).2.1⟩

end server

namespace task

/-- C18: in every store state reached from the empty store by a sequence of Save calls
(the counter staying within int64), the IDs of All, read in sequence order, are
exactly 1, 2, ..., lastID: the number of stored tasks equals lastID, the record at
position i (from 0) has ID i + 1, the IDs are strictly increasing along the
sequence, and Find reports found exactly for the ids from 1 to lastID. -/
theorem C18_stored_ids_are_one_to_lastID (args : List Task)
    (hb : (countNew args : Int) ≤ maxInt64) :
    (runSaves NewTaskManager args).All.map (fun s => s.ID)
      = idsUpTo (runSaves NewTaskManager args).All.length ∧
    ((runSaves NewTaskManager args).All.length : Int) = (runSaves NewTaskManager args).lastID ∧
    (∀ (i : Nat) (s : Task), (runSaves NewTaskManager args).All[i]? = some s →
      s.ID = (i : Int) + 1) ∧
    ((runSaves NewTaskManager args).All.map (fun s => s.ID)).Pairwise (fun a b => a < b) ∧
    (∀ (id : Int), ((runSaves NewTaskManager args).Find id).2 = true ↔
      (1 ≤ id ∧ id ≤ (runSaves NewTaskManager args).lastID)) := by
  have hs := (runSaves_spec args NewTaskManager Inv_init
    (by simpa [NewTaskManager] using hb)).1
  generalize runSaves NewTaskManager args = m at hs
  refine ⟨hs.1, hs.2.symm, fun i s h => Inv_getElem_ID m hs i s h, ?_, fun id => ?_⟩
  · simp only [TaskManager.All]
    rw [hs.1, idsUpTo]
    refine List.Pairwise.map _ ?_ (List.pairwise_lt_range _)
    intro a b hab
    omega
  · rw [TaskManager.Find, findLoop_true_iff]
    constructor
    · rintro ⟨s, hmem, rfl⟩
      exact Inv_mem_ID m hs s hmem
    · rintro ⟨h1, h2⟩
      have hmem : id ∈ m.tasks.map (fun s => s.ID) := by
        rw [hs.1, mem_idsUpTo, ← hs.2]
        exact ⟨h1, h2⟩
      obtain ⟨s, hs1, hs2⟩ := List.mem_map.mp hmem
      exact ⟨s, hs1, hs2⟩

/-- Instance of C18 on the sample sequence: two stored tasks, counter 2. -/
theorem C18_stored_ids_are_one_to_lastID_witness :
    (countNew sampleCalls : Int) ≤ maxInt64 ∧
    (runSaves NewTaskManager sampleCalls).All.map (fun s => s.ID)
      = idsUpTo (runSaves NewTaskManager sampleCalls).All.length ∧
    ((runSaves NewTaskManager sampleCalls).All.length : Int)
      = (runSaves NewTaskManager sampleCalls).lastID :=
  ⟨by decide,
    (C18_stored_ids_are_one_to_lastID sampleCalls (by decide)).1,
    (C18_stored_ids_are_one_to_lastID sampleCalls (by decide)).2.1⟩

end task

namespace server

/-- C19: in every store state reached from the empty store by Save calls, whatever
parseID and the decoding of the body yield, the update handler returns no error, a
badRequest or a notFound, never another error: the Save after a successful Find
does not fail. It creates no record: the number of stored tasks and lastID are the
same after the call; path id 0 with a body of ID 0 gives notFound and an unchanged
store. -/
theorem C19_update_never_internal_never_creates (args : List task.Task)
    (hb : (task.countNew args : Int) ≤ task.maxInt64)
    (parsed : Except String Int) (decoded : Except String task.Task) :
    ((UpdateTask (task.runSaves task.NewTaskManager args) parsed decoded).2 = none ∨
      (∃ msg, (UpdateTask (task.runSaves task.NewTaskManager args) parsed decoded).2
        = some (HandlerError.badRequest msg)) ∨
      (UpdateTask (task.runSaves task.NewTaskManager args) parsed decoded).2
        = some HandlerError.notFound) ∧
    (UpdateTask (task.runSaves task.NewTaskManager args) parsed decoded).1.tasks.length
      = (task.runSaves task.NewTaskManager args).tasks.length ∧
    (UpdateTask (task.runSaves task.NewTaskManager args) parsed decoded).1.lastID
      = (task.runSaves task.NewTaskManager args).lastID ∧
    (∀ (t : task.Task), t.ID = 0 →
      UpdateTask (task.runSaves task.NewTaskManager args) (Except.ok 0) (Except.ok t)
        = (task.runSaves task.NewTaskManager args, some HandlerError.notFound)) := by
  have hs := (task.runSaves_spec args task.NewTaskManager task.Inv_init
    (by simpa [task.NewTaskManager] using hb)).1
  generalize task.runSaves task.NewTaskManager args = m at hs
  have hzero : (m.Find 0).2 = false := by
    apply (task.findLoop_none_iff m.tasks 0).mpr
    intro s hmem h0
    have := (task.Inv_mem_ID m hs s hmem).1
    omega
  have hlast : ∀ (t : task.Task), t.ID = 0 →
      UpdateTask m (Except.ok 0) (Except.ok t) = (m, some HandlerError.notFound) := by
    intro t ht
    have := UpdateTask_not_found m t (by rw [ht]; exact hzero)
    rwa [ht] at this
  refine ⟨?_, ?_, ?_, hlast⟩ <;>
  · cases parsed with
    | error e => simp [UpdateTask]
    | ok id =>
      cases decoded with
      | error e => simp [UpdateTask]
      | ok t =>
        by_cases hne : t.ID = id
        · subst hne
          cases hf : (m.Find t.ID).2 with
          | false => simp [UpdateTask_not_found m t hf]
          | true =>
            have hex := (task.findLoop_true_iff m.tasks t.ID).mp hf
            have h0 : t.ID ≠ 0 := by
              obtain ⟨s, hmem, hid⟩ := hex
              have := (task.Inv_mem_ID m hs s hmem).1
              omega
            obtain ⟨ts, _, hsave, _, hlen⟩ := task.Save_of_mem m t h0 hex
            simp [UpdateTask_found m t hf, hsave, hlen]
        · simp [UpdateTask_mismatch m id t hne]

/-- Instance of C19 after the sample sequence: the path id 0 with a body of ID 0. -/
theorem C19_update_never_internal_never_creates_witness :
    (task.countNew task.sampleCalls : Int) ≤ task.maxInt64 ∧
    (UpdateTask (task.runSaves task.NewTaskManager task.sampleCalls) (Except.ok 0)
        (Except.ok ⟨0, "again", false⟩)).1.lastID
      = (task.runSaves task.NewTaskManager task.sampleCalls).lastID :=
  ⟨by decide,
    (C19_update_never_internal_never_creates task.sampleCalls (by decide) (Except.ok 0)
      (Except.ok ⟨0, "again", false⟩)).2.2.1⟩

/-- C20, the claim as stated fails: on a store whose first record has ID 0, the update
handler called twice with path id 0 and the body (0, "", true) appends two records,
called once it appends one. -/
theorem C20_update_twice_counterexample :
    (UpdateTask ⟨[⟨0, "draft", false⟩], 0⟩ (Except.ok 0) (Except.ok ⟨0, "", true⟩)).1
      = ⟨[⟨0, "draft", false⟩, ⟨1, "", true⟩], 1⟩ ∧
    (UpdateTask
        (UpdateTask ⟨[⟨0, "draft", false⟩], 0⟩ (Except.ok 0) (Except.ok ⟨0, "", true⟩)).1
        (Except.ok 0) (Except.ok ⟨0, "", true⟩)).1
      = ⟨[⟨0, "draft", false⟩, ⟨1, "", true⟩, ⟨2, "", true⟩], 2⟩ ∧
    (UpdateTask
        (UpdateTask ⟨[⟨0, "draft", false⟩], 0⟩ (Except.ok 0) (Except.ok ⟨0, "", true⟩)).1
        (Except.ok 0) (Except.ok ⟨0, "", true⟩)).1
      ≠ (UpdateTask ⟨[⟨0, "draft", false⟩], 0⟩ (Except.ok 0) (Except.ok ⟨0, "", true⟩)).1 := by
  decide

/-- C20, amended: update is idempotent wherever it can not take the new-record branch
of Save. For every store state, path id and body task t such that id is nonzero or
no stored task has ID 0 (as in every reachable state), the update handler run a
second time with the same id and t returns the same result and leaves the same
store as the first run; the same holds, in every state, when parseID or the decoding
fails. For every store state and every task t with a nonzero ID, Save of t after
Save of t yields the same store, task and result as the first Save. -/
theorem C20_update_idempotent (m : task.TaskManager) (id : Int) (t : task.Task)
    (h : id ≠ 0 ∨ ∀ s ∈ m.tasks, s.ID ≠ 0) :
    UpdateTask (UpdateTask m (Except.ok id) (Except.ok t)).1 (Except.ok id) (Except.ok t)
      = UpdateTask m (Except.ok id) (Except.ok t) ∧
    (∀ (e : String) (decoded : Except String task.Task),
      UpdateTask (UpdateTask m (Except.error e) decoded).1 (Except.error e) decoded
        = UpdateTask m (Except.error e) decoded) ∧
    (∀ (parsed : Except String Int) (e : String),
      UpdateTask (UpdateTask m parsed (Except.error e)).1 parsed (Except.error e)
        = UpdateTask m parsed (Except.error e)) ∧
    (t.ID ≠ 0 → (m.Save t).m.Save t = m.Save t) := by
  refine ⟨?_, fun e decoded => rfl, fun parsed e => ?_, fun h0 => task.Save_idem m t h0⟩
  · by_cases hne : t.ID = id
    · subst hne
      cases hf : (m.Find t.ID).2 with
      | false => simp [UpdateTask_not_found m t hf]
      | true =>
        have hex := (task.findLoop_true_iff m.tasks t.ID).mp hf
        have h0 : t.ID ≠ 0 := by
          rcases h with h | h
          · exact h
          · obtain ⟨s, hmem, hid⟩ := hex
            intro hz
            exact h s hmem (by rw [hid, hz])
        obtain ⟨ts, _, hsave, hfind, _⟩ := task.Save_of_mem m t h0 hex
        have hf2 : ((m.Save t).m.Find t.ID).2 = true := by
          rw [hsave]
          simp [task.TaskManager.Find, hfind]
        rw [UpdateTask_found m t hf]
        simp only []
        rw [UpdateTask_found (m.Save t).m t hf2, task.Save_idem m t h0]
    · simp [UpdateTask_mismatch _ id t hne]
  · cases parsed <;> rfl

/-- Instance of C20: the second of two tasks updated twice. -/
theorem C20_update_idempotent_witness :
    ((2 : Int) ≠ 0 ∨
      ∀ s ∈ (⟨[⟨1, "write", false⟩, ⟨2, "read", false⟩], 2⟩ : task.TaskManager).tasks,
        s.ID ≠ 0) ∧
    UpdateTask
        (UpdateTask ⟨[⟨1, "write", false⟩, ⟨2, "read", false⟩], 2⟩ (Except.ok 2)
          (Except.ok ⟨2, "read twice", true⟩)).1
        (Except.ok 2) (Except.ok ⟨2, "read twice", true⟩)
      = UpdateTask ⟨[⟨1, "write", false⟩, ⟨2, "read", false⟩], 2⟩ (Except.ok 2)
          (Except.ok ⟨2, "read twice", true⟩) :=
  ⟨Or.inl (by decide),
    (C20_update_idempotent ⟨[⟨1, "write", false⟩, ⟨2, "read", false⟩], 2⟩ 2
      ⟨2, "read twice", true⟩ (Or.inl (by decide))).1⟩

end server

/-! ## Auxiliary lemmas on the store held by reference -/

namespace task

theorem read_write_of_ne (μ : PtrState) (p q : Nat) (t : Task) (h : q ≠ p) :
    (μ.write p t).read q = μ.read q := by
  simp [PtrState.read, PtrState.write, List.getElem?_set_ne (Ne.symm h)]

theorem read_write_self (μ : PtrState) (p : Nat) (t : Task) (hp : p < μ.cells.length) :
    (μ.write p t).read p = t := by
  simp [PtrState.read, PtrState.write, List.getElem?_set_self hp]

theorem read_alloc_of_lt (cells : List Task) (x : Task) (ts : List Nat) (l1 l2 : Int)
    (q : Nat) (hq : q < cells.length) :
    (⟨cells ++ [x], ts, l1⟩ : PtrState).read q = (⟨cells, ts, l2⟩ : PtrState).read q := by
  simp [PtrState.read, List.getElem?_append_left hq]

theorem read_alloc_new (cells : List Task) (x : Task) (ts : List Nat) (l1 : Int) :
    (⟨cells ++ [x], ts, l1⟩ : PtrState).read cells.length = x := by
  simp [PtrState.read]

theorem ptr_findLoop_congr (μ1 μ2 : PtrState) (l : List Nat) (id : Int)
    (h : ∀ q ∈ l, μ1.read q = μ2.read q) : μ1.findLoop l id = μ2.findLoop l id := by
  induction l with
  | nil => rfl
  | cons a as ih =>
    have ha := h a (List.mem_cons_self _ _)
    have ih1 := ih (fun q hq => h q (List.mem_cons_of_mem _ hq))
    simp only [PtrState.findLoop, ha, ih1]

theorem ptr_findLoop_view (μ : PtrState) (l : List Nat) (id : Int) :
    ((μ.findLoop l id).1.map μ.read, (μ.findLoop l id).2) = findLoop (l.map μ.read) id := by
  induction l with
  | nil => rfl
  | cons a as ih =>
    by_cases ha : (μ.read a).ID = id
    · simp [PtrState.findLoop, findLoop, ha]
    · simp only [PtrState.findLoop, List.map_cons, findLoop, ha, if_false]
      exact ih

theorem ptr_findLoop_mem (μ : PtrState) (l : List Nat) (id : Int) (q : Nat)
    (h : μ.findLoop l id = (some q, true)) : q ∈ l := by
  induction l with
  | nil => simp [PtrState.findLoop] at h
  | cons a as ih =>
    by_cases ha : (μ.read a).ID = id
    · simp [PtrState.findLoop, ha] at h
      simp [h]
    · simp only [PtrState.findLoop, ha, if_false] at h
      exact List.mem_cons_of_mem _ (ih h)

theorem view_write_of_not_mem (μ : PtrState) (p : Nat) (t : Task) (h : p ∉ μ.tasks) :
    (μ.write p t).view = μ.view := by
  have hm : (μ.write p t).tasks.map (μ.write p t).read = μ.tasks.map μ.read := by
    apply List.map_congr_left
    intro q hq
    apply read_write_of_ne
    intro hqp
    exact h (hqp ▸ hq)
  simp only [PtrState.view, hm]
  rfl

theorem Find_write_of_not_mem (μ : PtrState) (p : Nat) (t : Task) (id : Int)
    (h : p ∉ μ.tasks) : (μ.write p t).Find id = μ.Find id := by
  apply ptr_findLoop_congr
  intro q hq
  apply read_write_of_ne
  intro hqp
  exact h (hqp ▸ hq)

theorem matchIndex_spec (μ : PtrState) (l : List Nat) (id : Int) (i : Nat)
    (h : μ.matchIndex l id = some i) : ∃ q, l[i]? = some q ∧ (μ.read q).ID = id := by
  induction l generalizing i with
  | nil => simp [PtrState.matchIndex] at h
  | cons a as ih =>
    by_cases ha : (μ.read a).ID = id
    · simp [PtrState.matchIndex, ha] at h
      subst h
      exact ⟨a, by simp, ha⟩
    · simp [PtrState.matchIndex, ha] at h
      obtain ⟨k, hk, rfl⟩ := h
      obtain ⟨q, h1, h2⟩ := ih k hk
      exact ⟨q, by simpa using h1, h2⟩

theorem replaceLoop_matchIndex (μ : PtrState) (l : List Nat) (t : Task) :
    replaceLoop (l.map μ.read) t
      = (μ.matchIndex l t.ID).map (fun i => (l.map μ.read).set i t) := by
  induction l with
  | nil => rfl
  | cons a as ih =>
    by_cases ha : (μ.read a).ID = t.ID
    · simp [PtrState.matchIndex, replaceLoop, ha, cloneTask_eq]
    · simp only [List.map_cons, replaceLoop, ha, if_false, PtrState.matchIndex, ih,
        Option.map_map]
      rfl

theorem not_mem_set_of_nodup (l : List Nat) (i p c : Nat) (hn : l.Nodup)
    (hi : l[i]? = some p) (hc : c ≠ p) : p ∉ l.set i c := by
  induction l generalizing i with
  | nil => simp at hi
  | cons a as ih =>
    have hna := List.nodup_cons.mp hn
    cases i with
    | zero =>
      simp at hi
      subst hi
      simp only [List.set_cons_zero, List.mem_cons, not_or]
      exact ⟨fun h => hc h.symm, hna.1⟩
    | succ k =>
      have hk : as[k]? = some p := by simpa using hi
      have hmem : p ∈ as := List.getElem?_mem hk
      simp only [List.set_cons_succ, List.mem_cons, not_or]
      refine ⟨?_, ih k hna.2 hk⟩
      intro hpa
      exact hna.1 (hpa ▸ hmem)

theorem ptr_Save_zero (μ : PtrState) (p : Nat) (h0 : (μ.read p).ID = 0)
    (hp : p < μ.cells.length) :
    μ.Save p =
      (⟨μ.cells.set p ⟨wrap64 (μ.lastID + 1), (μ.read p).Title, (μ.read p).Done⟩
          ++ [⟨wrap64 (μ.lastID + 1), (μ.read p).Title, (μ.read p).Done⟩],
        μ.tasks ++ [μ.cells.length], wrap64 (μ.lastID + 1)⟩, none) := by
  have hr : ∀ (t : Task), (μ.cells.set p t)[p]? = some t := fun t => List.getElem?_set_self hp
  unfold PtrState.Save
  rw [if_pos h0]
  simp [PtrState.write, PtrState.cloneTask, PtrState.read, hr]

theorem ptr_Save_nonzero (μ : PtrState) (p : Nat) (h0 : (μ.read p).ID ≠ 0) :
    μ.Save p =
      match μ.matchIndex μ.tasks (μ.read p).ID with
      | some i => (⟨μ.cells ++ [μ.read p], μ.tasks.set i μ.cells.length, μ.lastID⟩, none)
      | none => (μ, some "uknown error") := by
  simp only [PtrState.Save, h0, if_false, PtrState.cloneTask]

theorem ptr_Save_not_mem (μ : PtrState) (p : Nat) (hp : p < μ.cells.length)
    (hown : p ∉ μ.tasks ∨ μ.DistinctIDs) (hok : (μ.Save p).2 = none) :
    p ∉ (μ.Save p).1.tasks := by
  by_cases h0 : (μ.read p).ID = 0
  · rw [ptr_Save_zero μ p h0 hp]
    have hnm : p ∉ μ.tasks := by
      rcases hown with h | h
      · exact h
      · intro hmem
        exact h.2 (μ.read p) (List.mem_map_of_mem _ hmem) h0
    simp only [List.mem_append, List.mem_singleton, not_or]
    exact ⟨hnm, by omega⟩
  · rw [ptr_Save_nonzero μ p h0] at hok ⊢
    cases hm : μ.matchIndex μ.tasks (μ.read p).ID with
    | none => simp [hm] at hok
    | some i =>
      simp only []
      obtain ⟨q, hq1, hq2⟩ := matchIndex_spec μ μ.tasks _ i hm
      by_cases hmem : p ∈ μ.tasks
      · rcases hown with h | h
        · exact absurd hmem h
        · have hnd : (μ.tasks.map (fun r => (μ.read r).ID)).Nodup := by
            have := h.1
            simpa [PtrState.view, List.map_map, Function.comp] using this
          have hqp : q = p :=
            List.inj_on_of_nodup_map hnd (List.getElem?_mem hq1) hmem hq2
          subst hqp
          exact not_mem_set_of_nodup μ.tasks i q μ.cells.length (List.Nodup.of_map _ hnd)
            hq1 (by omega)
      · intro hset
        rcases List.mem_or_eq_of_mem_set hset with h | h
        · exact hmem h
        · omega

theorem ptr_Save_view (μ : PtrState) (p : Nat) (hv : μ.Valid) (hp : p < μ.cells.length)
    (hown : p ∉ μ.tasks ∨ (μ.read p).ID ≠ 0) :
    (μ.Save p).1.view = (μ.view.Save (μ.read p)).m ∧
    (μ.Save p).2 = (μ.view.Save (μ.read p)).err ∧
    (μ.Save p).1.read p = (μ.view.Save (μ.read p)).task := by
  by_cases h0 : (μ.read p).ID = 0
  · have hnm : p ∉ μ.tasks := by
      rcases hown with h | h
      · exact h
      · exact absurd h0 h
    rw [ptr_Save_zero μ p h0 hp, Save_zero _ _ h0]
    refine ⟨?_, rfl, ?_⟩
    · simp only [PtrState.view, List.map_append, List.map_cons, List.map_nil]
      congr 1
      congr 1
      · apply List.map_congr_left
        intro q hq
        have hq1 : q < (μ.cells.set p
            ⟨wrap64 (μ.lastID + 1), (μ.read p).Title, (μ.read p).Done⟩).length := by
          simpa using hv q hq
        rw [read_alloc_of_lt _ _ _ _ μ.lastID q hq1]
        exact read_write_of_ne μ p q _ (fun hqp => hnm (hqp ▸ hq))
      · have := read_alloc_new (μ.cells.set p
            ⟨wrap64 (μ.lastID + 1), (μ.read p).Title, (μ.read p).Done⟩)
          ⟨wrap64 (μ.lastID + 1), (μ.read p).Title, (μ.read p).Done⟩
          (μ.tasks ++ [μ.cells.length]) (wrap64 (μ.lastID + 1))
        simpa using congrArg (fun x => [x]) this
    · have hp1 : p < (μ.cells.set p
          ⟨wrap64 (μ.lastID + 1), (μ.read p).Title, (μ.read p).Done⟩).length := by
        simpa using hp
      simp only []
      rw [read_alloc_of_lt _ _ _ _ μ.lastID p hp1]
      exact read_write_self μ p _ hp
  · rw [ptr_Save_nonzero μ p h0, Save_nonzero _ _ h0]
    have hrl := replaceLoop_matchIndex μ μ.tasks (μ.read p)
    simp only [PtrState.view] at hrl ⊢
    cases hm : μ.matchIndex μ.tasks (μ.read p).ID with
    | none =>
      rw [hm] at hrl
      simp only [Option.map_none'] at hrl
      simp [hrl]
    | some i =>
      rw [hm] at hrl
      simp only [Option.map_some'] at hrl
      simp only [hrl]
      refine ⟨?_, trivial, ?_⟩
      · simp only [List.map_set]
        congr 1
        have hnew := read_alloc_new μ.cells (μ.read p) (μ.tasks.set i μ.cells.length) μ.lastID
        rw [hnew]
        congr 1
        apply List.map_congr_left
        intro q hq
        exact read_alloc_of_lt μ.cells _ _ _ μ.lastID q (hv q hq)
      · exact read_alloc_of_lt μ.cells _ _ _ μ.lastID p hp

end task

/-! ## Find after a write through a stored pointer -/

namespace task

theorem ptr_findLoop_ID (μ : PtrState) (l : List Nat) (id : Int) (q : Nat)
    (h : μ.findLoop l id = (some q, true)) : (μ.read q).ID = id := by
  induction l with
  | nil => simp [PtrState.findLoop] at h
  | cons a as ih =>
    by_cases ha : (μ.read a).ID = id
    · simp [PtrState.findLoop, ha] at h
      subst h
      exact ha
    · simp only [PtrState.findLoop, ha, if_false] at h
      exact ih h

theorem ptr_findLoop_write_same_ID (μ : PtrState) (l : List Nat) (id : Int) (q : Nat)
    (t1 : Task) (hq : q < μ.cells.length) (h : μ.findLoop l id = (some q, true))
    (hid : t1.ID = id) : (μ.write q t1).findLoop l id = (some q, true) := by
  induction l with
  | nil => simp [PtrState.findLoop] at h
  | cons a as ih =>
    by_cases ha : (μ.read a).ID = id
    · simp [PtrState.findLoop, ha] at h
      subst h
      simp [PtrState.findLoop, read_write_self μ a t1 hq, hid]
    · have h1 : μ.findLoop as id = (some q, true) := by
        simpa only [PtrState.findLoop, ha, if_false] using h
      have hne : a ≠ q := by
        intro haq
        rw [haq] at ha
        exact ha (ptr_findLoop_ID μ as id q h1)
      simp only [PtrState.findLoop, read_write_of_ne μ q a t1 hne, ha, if_false]
      exact ih h1

theorem view_tasks_write (μ : PtrState) (hv : μ.Valid) (q : Nat) (hq : q < μ.cells.length)
    (t1 : Task) :
    (μ.write q t1).view.tasks = μ.tasks.map (fun r => if r = q then t1 else μ.read r) := by
  have _ := hv
  simp only [PtrState.view]
  apply List.map_congr_left
  intro r _
  by_cases hr : r = q
  · subst hr
    simp [read_write_self μ r t1 hq]
  · simp [hr, read_write_of_ne μ q r t1 hr]

end task

/-! ## Copies and sharing (claims C4, C14 and C15) -/

namespace task

/-- C4, the claim as stated fails. A caller saves a task into the empty store, gets
the stored pointer from Find 1 and sets the ID of that Task to 0; the store then
holds the one record (0, "draft", false). Save of that pointer returns no error and
appends, but the assignment task.ID = m.lastID goes through the pointer the store
holds: the record at position 0 is (2, "draft", false) afterwards, not unchanged. -/
theorem C4_save_stored_pointer_counterexample :
    (((⟨[], [], 0⟩ : PtrState).alloc ⟨0, "draft", false⟩).Save 0).1.Find 1 = (some 1, true) ∧
    aliasedPtrState.view = ⟨[⟨0, "draft", false⟩], 1⟩ ∧
    (aliasedPtrState.read 1).ID = 0 ∧
    (aliasedPtrState.Save 1).2 = none ∧
    (aliasedPtrState.Save 1).1.view = ⟨[⟨2, "draft", false⟩, ⟨2, "draft", false⟩], 2⟩ ∧
    (aliasedPtrState.Save 1).1.view.tasks[0]? ≠ aliasedPtrState.view.tasks[0]? := by
  decide

/-- C4, amended: for every store state (its stored pointers pointing to allocated
Tasks) and every pointer p to an allocated Task with ID 0, Save returns no error,
sets lastID to its int64 increment (lastID + 1 for every counter below the int64
maximum), sets the ID of the caller's Task to the new lastID, and appends to the
sequence of stored pointers one pointer to a new Task (new lastID, Title, Done);
the stored pointers keep their positions, and every stored Task other than the
caller's Task itself is unchanged. When the store does not hold p, the records of
the store are therefore the old ones followed by the new record. -/
theorem C4_save_new_appends (μ : PtrState) (p : Nat) (hv : μ.Valid)
    (hp : p < μ.cells.length) (h0 : (μ.read p).ID = 0) :
    (μ.Save p).2 = none ∧
    (μ.Save p).1.lastID = wrap64 (μ.lastID + 1) ∧
    (isInt64 μ.lastID → μ.lastID < maxInt64 → (μ.Save p).1.lastID = μ.lastID + 1) ∧
    (p ∉ μ.tasks →
      (μ.Save p).1.view.tasks
        = μ.view.tasks ++ [⟨(μ.Save p).1.lastID, (μ.read p).Title, (μ.read p).Done⟩]) ∧
    (μ.Save p).1.read p = ⟨(μ.Save p).1.lastID, (μ.read p).Title, (μ.read p).Done⟩ ∧
    (μ.Save p).1.tasks = μ.tasks ++ [μ.cells.length] ∧
    μ.cells.length ∉ μ.tasks ∧
    (μ.Save p).1.read μ.cells.length
      = ⟨(μ.Save p).1.lastID, (μ.read p).Title, (μ.read p).Done⟩ ∧
    (∀ q ∈ μ.tasks, q ≠ p → (μ.Save p).1.read q = μ.read q) := by
  have hlen : ∀ (t : Task), (μ.cells.set p t).length = μ.cells.length := fun t => by simp
  have hnew : (μ.Save p).1.read μ.cells.length
      = ⟨wrap64 (μ.lastID + 1), (μ.read p).Title, (μ.read p).Done⟩ := by
    rw [ptr_Save_zero μ p h0 hp]
    have := read_alloc_new (μ.cells.set p
        ⟨wrap64 (μ.lastID + 1), (μ.read p).Title, (μ.read p).Done⟩)
      ⟨wrap64 (μ.lastID + 1), (μ.read p).Title, (μ.read p).Done⟩
      (μ.tasks ++ [μ.cells.length]) (wrap64 (μ.lastID + 1))
    rw [hlen] at this
    exact this
  have hold : ∀ (q : Nat), q < μ.cells.length →
      (μ.Save p).1.read q
        = (μ.write p ⟨wrap64 (μ.lastID + 1), (μ.read p).Title, (μ.read p).Done⟩).read q := by
    intro q hq
    rw [ptr_Save_zero μ p h0 hp]
    exact read_alloc_of_lt _ _ _ _ μ.lastID q (by rw [hlen]; exact hq)
  have hother : ∀ q ∈ μ.tasks, q ≠ p → (μ.Save p).1.read q = μ.read q := by
    intro q hq hne
    rw [hold q (hv q hq)]
    exact read_write_of_ne μ p q _ hne
  have hlast : (μ.Save p).1.lastID = wrap64 (μ.lastID + 1) := by
    rw [ptr_Save_zero μ p h0 hp]
  have htasks : (μ.Save p).1.tasks = μ.tasks ++ [μ.cells.length] := by
    rw [ptr_Save_zero μ p h0 hp]
  refine ⟨?_, hlast, ?_, ?_, ?_, htasks, ?_, ?_, hother⟩
  · rw [ptr_Save_zero μ p h0 hp]
  · intro hr hb
    rw [hlast]
    exact wrap64_of_range _ (by have := hr.1; omega) (by omega)
  · intro hnm
    simp only [PtrState.view, htasks, List.map_append, List.map_cons, List.map_nil, hnew, hlast]
    congr 1
    apply List.map_congr_left
    intro q hq
    exact hother q hq (fun hqp => hnm (hqp ▸ hq))
  · rw [hold p hp, hlast]
    exact read_write_self μ p _ hp
  · intro hmem
    exact absurd (hv _ hmem) (Nat.lt_irrefl _)
  · rw [hnew, hlast]

/-- Instance of C4: a caller's new task (object 2) saved into a store that holds one
record, counter 1. -/
theorem C4_save_new_appends_witness :
    (⟨[⟨1, "write", true⟩, ⟨1, "write", true⟩, ⟨0, "read", false⟩], [1], 1⟩ : PtrState).Valid ∧
    2 < (⟨[⟨1, "write", true⟩, ⟨1, "write", true⟩, ⟨0, "read", false⟩], [1], 1⟩ :
      PtrState).cells.length ∧
    ((⟨[⟨1, "write", true⟩, ⟨1, "write", true⟩, ⟨0, "read", false⟩], [1], 1⟩ :
      PtrState).read 2).ID = 0 ∧
    2 ∉ (⟨[⟨1, "write", true⟩, ⟨1, "write", true⟩, ⟨0, "read", false⟩], [1], 1⟩ :
      PtrState).tasks ∧
    ((⟨[⟨1, "write", true⟩, ⟨1, "write", true⟩, ⟨0, "read", false⟩], [1], 1⟩ :
      PtrState).Save 2).1.view.tasks
      = (⟨[⟨1, "write", true⟩, ⟨1, "write", true⟩, ⟨0, "read", false⟩], [1], 1⟩ :
          PtrState).view.tasks
        ++ [⟨((⟨[⟨1, "write", true⟩, ⟨1, "write", true⟩, ⟨0, "read", false⟩], [1], 1⟩ :
              PtrState).Save 2).1.lastID,
            ((⟨[⟨1, "write", true⟩, ⟨1, "write", true⟩, ⟨0, "read", false⟩], [1], 1⟩ :
              PtrState).read 2).Title,
            ((⟨[⟨1, "write", true⟩, ⟨1, "write", true⟩, ⟨0, "read", false⟩], [1], 1⟩ :
              PtrState).read 2).Done⟩] :=
  ⟨by decide, by decide, by decide, by decide,
    (C4_save_new_appends
      ⟨[⟨1, "write", true⟩, ⟨1, "write", true⟩, ⟨0, "read", false⟩], [1], 1⟩ 2
      (by decide) (by decide) (by decide)).2.2.2.1 (by decide)⟩

/-- C14, the claim as stated fails. In the state of a store with two records that
carry the same ID 1, the caller holding the pointer 1 to the second of them, Save of
that pointer succeeds and replaces the first record; the store still holds the
pointer 1, and what the caller then assigns through it becomes the second record
of the store. -/
theorem C14_store_keeps_pointer_counterexample :
    (⟨[⟨1, "write", false⟩, ⟨1, "read", false⟩], [0, 1], 1⟩ : PtrState).Valid ∧
    ((⟨[⟨1, "write", false⟩, ⟨1, "read", false⟩], [0, 1], 1⟩ : PtrState).Save 1).2 = none ∧
    ((⟨[⟨1, "write", false⟩, ⟨1, "read", false⟩], [0, 1], 1⟩ : PtrState).Save 1).1.tasks
      = [2, 1] ∧
    ((⟨[⟨1, "write", false⟩, ⟨1, "read", false⟩], [0, 1], 1⟩ : PtrState).Save 1).1.view
      = ⟨[⟨1, "read", false⟩, ⟨1, "read", false⟩], 1⟩ ∧
    (((⟨[⟨1, "write", false⟩, ⟨1, "read", false⟩], [0, 1], 1⟩ : PtrState).Save 1).1.write 1
        ⟨9, "lost", true⟩).view
      = ⟨[⟨1, "read", false⟩, ⟨9, "lost", true⟩], 1⟩ ∧
    (aliasedPtrState.Save 1).2 = none ∧
    ((aliasedPtrState.Save 1).1.write 1 ⟨9, "lost", true⟩).view
      ≠ (aliasedPtrState.Save 1).1.view := by
  decide

/-- C14, amended: Save stores a copy, not the caller's Task object. For every store
state whose stored pointers are valid and every pointer p to an allocated Task that
the store does not hold (or any such pointer at all when the stored IDs are nonzero
and pairwise different), after a Save of p that succeeds the store does not hold p,
so whatever the caller later assigns to the fields of the Task at p, the records of
the store, the pointers and records returned by All and Find are the same as
immediately after the Save; they are what Save by value yields for the value of
the Task at the time of the call. -/
theorem C14_save_stores_a_copy (μ : PtrState) (p : Nat) (hv : μ.Valid)
    (hp : p < μ.cells.length) (hown : p ∉ μ.tasks ∨ μ.DistinctIDs)
    (hok : (μ.Save p).2 = none) (t1 : Task) :
    p ∉ (μ.Save p).1.tasks ∧
    ((μ.Save p).1.write p t1).view = (μ.Save p).1.view ∧
    ((μ.Save p).1.write p t1).All = (μ.Save p).1.All ∧
    (∀ (id : Int),
      ((μ.Save p).1.write p t1).Find id = (μ.Save p).1.Find id ∧
      (((μ.Save p).1.write p t1).Find id).1.map ((μ.Save p).1.write p t1).read
        = ((μ.Save p).1.Find id).1.map (μ.Save p).1.read) ∧
    ((μ.Save p).1.write p t1).view = (μ.view.Save (μ.read p)).m := by
  have hnm := ptr_Save_not_mem μ p hp hown hok
  have hview := view_write_of_not_mem (μ.Save p).1 p t1 hnm
  have hown1 : p ∉ μ.tasks ∨ (μ.read p).ID ≠ 0 := by
    by_cases hmem : p ∈ μ.tasks
    · rcases hown with h | h
      · exact Or.inl h
      · exact Or.inr (h.2 (μ.read p) (List.mem_map_of_mem _ hmem))
    · exact Or.inl hmem
  refine ⟨hnm, hview, rfl, fun id => ?_, ?_⟩
  · have hfind := Find_write_of_not_mem (μ.Save p).1 p t1 id hnm
    refine ⟨hfind, ?_⟩
    have h1 := congrArg Prod.fst
      (ptr_findLoop_view ((μ.Save p).1.write p t1) ((μ.Save p).1.write p t1).tasks id)
    have h2 := congrArg Prod.fst (ptr_findLoop_view (μ.Save p).1 (μ.Save p).1.tasks id)
    have h3 : ((μ.Save p).1.write p t1).tasks.map ((μ.Save p).1.write p t1).read
        = (μ.Save p).1.tasks.map (μ.Save p).1.read := congrArg TaskManager.tasks hview
    simp only [PtrState.Find]
    simp only [] at h1 h2
    rw [h1, h2, h3]
  · rw [hview]
    exact (ptr_Save_view μ p hv hp hown1).1

/-- Instance of C14: the caller saves its new task (object 0) into the empty store
and then overwrites it. -/
theorem C14_save_stores_a_copy_witness :
    (⟨[⟨0, "write", false⟩], [], 0⟩ : PtrState).Valid ∧
    0 < (⟨[⟨0, "write", false⟩], [], 0⟩ : PtrState).cells.length ∧
    0 ∉ (⟨[⟨0, "write", false⟩], [], 0⟩ : PtrState).tasks ∧
    ((⟨[⟨0, "write", false⟩], [], 0⟩ : PtrState).Save 0).2 = none ∧
    (((⟨[⟨0, "write", false⟩], [], 0⟩ : PtrState).Save 0).1.write 0 ⟨9, "lost", true⟩).view
      = ((⟨[⟨0, "write", false⟩], [], 0⟩ : PtrState).Save 0).1.view :=
  ⟨by decide, by decide, by decide, by decide,
    (C14_save_stores_a_copy ⟨[⟨0, "write", false⟩], [], 0⟩ 0 (by decide) (by decide)
      (Or.inl (by decide)) (by decide) ⟨9, "lost", true⟩).2.1⟩

/-- C15, the claim as stated fails. After two tasks were allocated by the caller and
saved into the empty store, Find 2 returns the pointer 3 that the store itself
holds, and so does All; the caller assigning through that pointer changes the
second record of the store. -/
theorem C15_write_through_find_counterexample :
    ((((⟨[], [], 0⟩ : PtrState).alloc ⟨0, "write", false⟩).Save 0).1.alloc
      ⟨0, "read", false⟩).Save 2 = (samplePtrState, none) ∧
    samplePtrState.Find 2 = (some 3, true) ∧
    samplePtrState.All = [1, 3] ∧
    samplePtrState.view.tasks = [⟨1, "write", false⟩, ⟨2, "read", false⟩] ∧
    (samplePtrState.write 3 ⟨2, "lost", true⟩).view.tasks
      = [⟨1, "write", false⟩, ⟨2, "lost", true⟩] ∧
    ((samplePtrState.write 3 ⟨2, "lost", true⟩).Find 2).1.map
        (samplePtrState.write 3 ⟨2, "lost", true⟩).read
      ≠ (samplePtrState.Find 2).1.map samplePtrState.read := by
  decide

/-- C15, amended: Find and All hand out the stored pointers, not copies. For every
store state whose stored pointers are valid, a pointer q that is an element of All
or the result of a successful Find is a pointer the store holds. When the caller
assigns the value t1 to the Task at q, the slice of stored pointers and lastID are
unchanged; All afterwards returns records that are t1 wherever the slice holds q
and the same as before at every other position; Find afterwards scans these
records, and Find at the id at which q was found returns q again, now with the
contents t1, when t1 still has that ID. -/
theorem C15_find_all_return_stored_pointers (μ : PtrState) (hv : μ.Valid) (q : Nat)
    (hq : q ∈ μ.All ∨ ∃ (id : Int), μ.Find id = (some q, true)) (t1 : Task) :
    q ∈ μ.tasks ∧
    (μ.write q t1).All = μ.All ∧
    (μ.write q t1).lastID = μ.lastID ∧
    (μ.write q t1).read q = t1 ∧
    (μ.write q t1).All.map (μ.write q t1).read
      = μ.All.map (fun r => if r = q then t1 else μ.read r) ∧
    (∀ (id : Int),
      (((μ.write q t1).Find id).1.map (μ.write q t1).read, ((μ.write q t1).Find id).2)
        = findLoop (μ.All.map (fun r => if r = q then t1 else μ.read r)) id) ∧
    (∀ (id : Int), μ.Find id = (some q, true) → t1.ID = id →
      (μ.write q t1).Find id = (some q, true)) := by
  have hmem : q ∈ μ.tasks := by
    rcases hq with h | ⟨id, h⟩
    · exact h
    · exact ptr_findLoop_mem μ μ.tasks id q h
  have hlt : q < μ.cells.length := hv q hmem
  have hview := view_tasks_write μ hv q hlt t1
  simp only [PtrState.view] at hview
  refine ⟨hmem, rfl, rfl, read_write_self μ q t1 hlt, hview, fun id => ?_, fun id hf hid => ?_⟩
  · have := ptr_findLoop_view (μ.write q t1) (μ.write q t1).tasks id
    rw [hview] at this
    exact this
  · exact ptr_findLoop_write_same_ID μ μ.tasks id q t1 hlt hf hid

/-- Instance of C15: the pointer to the second record, obtained from Find 2, is used to
change the title and the flag; Find 2 returns the same pointer afterwards. -/
theorem C15_find_all_return_stored_pointers_witness :
    samplePtrState.Valid ∧
    samplePtrState.Find 2 = (some 3, true) ∧
    (samplePtrState.write 3 ⟨2, "lost", true⟩).All.map
        (samplePtrState.write 3 ⟨2, "lost", true⟩).read
      = samplePtrState.All.map
          (fun r => if r = 3 then ⟨2, "lost", true⟩ else samplePtrState.read r) ∧
    (samplePtrState.write 3 ⟨2, "lost", true⟩).Find 2 = (some 3, true) :=
  ⟨by decide, by decide,
    (C15_find_all_return_stored_pointers samplePtrState (by decide) 3
      (Or.inr ⟨2, by decide⟩) ⟨2, "lost", true⟩).2.2.2.2.1,
    (C15_find_all_return_stored_pointers samplePtrState (by decide) 3
      (Or.inr ⟨2, by decide⟩) ⟨2, "lost", true⟩).2.2.2.2.2.2 2 (by decide) rfl⟩

end task
